import Mathlib

/-!
Verification development for the json-schema-docs-generator core:
the object-definition resolver (src/lib/object-definition.js), the
example-data extractor (src/unnamed/part_000, the ExampleDataExtractor
module), and the cURL string builder (src/lib/helpers/curl.js).

JavaScript runtime values are embedded as the inductive type JVal;
schema nodes are embedded as the structured inductive type Schema whose
fields are exactly the keys the source reads.  The recursive resolver
and extractor are embedded as fuel-indexed functions (structural
recursion on the fuel) returning Except, so that thrown JS errors are
error values and every definition reduces definitionally on concrete
input.  Lodash helpers used by the source (extend, defaults, pick,
omit, isEmpty, merge with an array-concat customizer, transform,
mapValues) are embedded on JVal / association lists with the documented
lodash semantics.  The per-build random id (underscore random at
object-definition.js line 45) is a nondeterministic draw; it is
modelled as an ambient parameter carried in the evaluation context,
since no result below depends on it.
-/

/-- A JavaScript runtime value: undefined, null, booleans, numbers
(integral examples only appear in the sources), strings, arrays and
plain objects (ordered association lists of own enumerable keys). -/
inductive JVal where
  | undefinedV : JVal
  | nullv : JVal
  | bool (b : Bool) : JVal
  | num (n : Int) : JVal
  | str (s : String) : JVal
  | arr (l : List JVal) : JVal
  | obj (fs : List (String × JVal)) : JVal

/-- JavaScript truthiness of a value. -/
def truthy : JVal → Bool
  | .undefinedV => false
  | .nullv => false
  | .bool b => b
  | .num n => n != 0
  | .str s => !s.isEmpty
  | .arr _ => true
  | .obj _ => true

/-- Lodash isEmpty: true for nullish values and primitives (booleans
and numbers included), emptiness of the contents for strings, arrays
and plain objects. -/
def isEmptyJV : JVal → Bool
  | .undefinedV => true
  | .nullv => true
  | .bool _ => true
  | .num _ => true
  | .str s => s.isEmpty
  | .arr l => l.isEmpty
  | .obj fs => fs.isEmpty

/-- Field lookup in an association list (first match). -/
def fsGet (fs : List (String × JVal)) (k : String) : Option JVal :=
  match fs with
  | [] => none
  | p :: rest => if p.1 = k then some p.2 else fsGet rest k

/-- Property read on a JS value; absent keys and reads on non-objects
give undefined (call sites where JS would instead throw a TypeError
model the throw explicitly). -/
def objGet (v : JVal) (k : String) : JVal :=
  match v with
  | .obj fs => (fsGet fs k).getD .undefinedV
  | _ => .undefinedV

/-- Key-presence test on a JS object value. -/
def objHasKey (v : JVal) (k : String) : Bool :=
  match v with
  | .obj fs => (fsGet fs k).isSome
  | _ => false

/-- Assignment obj[k] = v on an association list: replaces the value in
place when the key exists (JS keeps the original insertion position),
appends otherwise. -/
def fsSet (fs : List (String × JVal)) (k : String) (v : JVal) : List (String × JVal) :=
  match fs with
  | [] => [(k, v)]
  | p :: rest => if p.1 = k then (k, v) :: rest else p :: fsSet rest k v

/-- Deletion delete obj[k]: removes the key from objects, is a no-op on
every other value (JS boxes the primitive and discards the box). -/
def objDelete (v : JVal) (k : String) : JVal :=
  match v with
  | .obj fs => .obj (fs.filter (fun p => p.1 ≠ k))
  | _ => v

/-- Own enumerable string-keyed entries of a value, as lodash assign
and extend enumerate them: object fields, array indices, string
indices; none for other values. -/
def enumProps : JVal → List (String × JVal)
  | .obj fs => fs
  | .arr l => (l.enum.map (fun p => (toString p.1, p.2)))
  | .str s => (s.data.enum.map (fun p => (toString p.1, JVal.str (String.mk [p.2]))))
  | _ => []

/-- Lodash extend (assignIn) of src into dest, as a pure value: copies
the enumerable entries of src over dest when dest is an object.  A
non-object dest is boxed by lodash (Object(dest)) so the copy lands in
a fresh box; the source discards that box at every call site, therefore
the boxed cases only matter for the returned value and are modelled as
a plain object of the copied entries. -/
def extendJV (dest src : JVal) : JVal :=
  match dest with
  | .obj fs => .obj ((enumProps src).foldl (fun acc p => fsSet acc p.1 p.2) fs)
  | .undefinedV => .obj (enumProps src)
  | .nullv => .obj (enumProps src)
  | _ => .obj (enumProps src)

/-- Lodash defaults(dest, src): fills every key of src whose value in
dest is undefined or absent; nullish sources are ignored. -/
def defaultsJV (dest src : JVal) : JVal :=
  match dest, src with
  | .obj fs, .obj sfs =>
      .obj (sfs.foldl (fun acc p =>
        match fsGet acc p.1 with
        | some .undefinedV => fsSet acc p.1 p.2
        | some _ => acc
        | none => fsSet acc p.1 p.2) fs)
  | _, _ => dest

/-- JS typeof, as used for enum-derived property types. -/
def typeofJV : JVal → String
  | .undefinedV => "undefined"
  | .nullv => "object"
  | .bool _ => "boolean"
  | .num _ => "number"
  | .str _ => "string"
  | .arr _ => "object"
  | .obj _ => "object"

/-- JS string coercion, used by the query-string builder. -/
def jsToString : JVal → String
  | .undefinedV => "undefined"
  | .nullv => "null"
  | .bool b => if b then "true" else "false"
  | .num n => toString n
  | .str s => s
  | .arr _ => ""
  | .obj _ => "[object Object]"


/-!
Schema nodes.  The fields are exactly the keys the three source files
read from a schema object: type, properties, items, required,
additionalProperties (boolean or schema), allOf, oneOf, anyOf, enum,
title, description, id, rel, noDisplay, private, exclusive, example,
default, and the generator.includeAdditionalProperties opt-in flag.
An absent key is none.  Keys named with Lean keywords are renamed
(private to priv, default to dflt, example to exampleV); additionalProperties is addProps,
id is idTag, enum is enumVals, generator.includeAdditionalProperties is
genIncludeAP.
-/
inductive Schema where
  | mk
    (type : Option String)
    (properties : Option (List (String × Schema)))
    (items : Option Schema)
    (required : Option (List String))
    (addProps : Option (Sum Bool Schema))
    (allOf : Option (List Schema))
    (oneOf : Option (List Schema))
    (anyOf : Option (List Schema))
    (enumVals : Option (List JVal))
    (title : Option String)
    (description : Option String)
    (idTag : Option String)
    (rel : Option String)
    (noDisplay : Option Bool)
    (priv : Option Bool)
    (exclusive : Option (List (List String)))
    (exampleV : Option JVal)
    (dflt : Option JVal)
    (genIncludeAP : Option Bool)
    : Schema

def Schema.type : Schema → Option String
  | .mk t _ _ _ _ _ _ _ _ _ _ _ _ _ _ _ _ _ _ => t

def Schema.properties : Schema → Option (List (String × Schema))
  | .mk _ p _ _ _ _ _ _ _ _ _ _ _ _ _ _ _ _ _ => p

def Schema.items : Schema → Option Schema
  | .mk _ _ i _ _ _ _ _ _ _ _ _ _ _ _ _ _ _ _ => i

def Schema.required : Schema → Option (List String)
  | .mk _ _ _ r _ _ _ _ _ _ _ _ _ _ _ _ _ _ _ => r

def Schema.addProps : Schema → Option (Sum Bool Schema)
  | .mk _ _ _ _ a _ _ _ _ _ _ _ _ _ _ _ _ _ _ => a

def Schema.allOf : Schema → Option (List Schema)
  | .mk _ _ _ _ _ a _ _ _ _ _ _ _ _ _ _ _ _ _ => a

def Schema.oneOf : Schema → Option (List Schema)
  | .mk _ _ _ _ _ _ o _ _ _ _ _ _ _ _ _ _ _ _ => o

def Schema.anyOf : Schema → Option (List Schema)
  | .mk _ _ _ _ _ _ _ a _ _ _ _ _ _ _ _ _ _ _ => a

def Schema.enumVals : Schema → Option (List JVal)
  | .mk _ _ _ _ _ _ _ _ e _ _ _ _ _ _ _ _ _ _ => e

def Schema.title : Schema → Option String
  | .mk _ _ _ _ _ _ _ _ _ t _ _ _ _ _ _ _ _ _ => t

def Schema.description : Schema → Option String
  | .mk _ _ _ _ _ _ _ _ _ _ d _ _ _ _ _ _ _ _ => d

def Schema.idTag : Schema → Option String
  | .mk _ _ _ _ _ _ _ _ _ _ _ i _ _ _ _ _ _ _ => i

def Schema.rel : Schema → Option String
  | .mk _ _ _ _ _ _ _ _ _ _ _ _ r _ _ _ _ _ _ => r

def Schema.noDisplay : Schema → Option Bool
  | .mk _ _ _ _ _ _ _ _ _ _ _ _ _ n _ _ _ _ _ => n

def Schema.priv : Schema → Option Bool
  | .mk _ _ _ _ _ _ _ _ _ _ _ _ _ _ p _ _ _ _ => p

def Schema.exclusive : Schema → Option (List (List String))
  | .mk _ _ _ _ _ _ _ _ _ _ _ _ _ _ _ e _ _ _ => e

def Schema.exampleV : Schema → Option JVal
  | .mk _ _ _ _ _ _ _ _ _ _ _ _ _ _ _ _ e _ _ => e

def Schema.dflt : Schema → Option JVal
  | .mk _ _ _ _ _ _ _ _ _ _ _ _ _ _ _ _ _ d _ => d

def Schema.genIncludeAP : Schema → Option Bool
  | .mk _ _ _ _ _ _ _ _ _ _ _ _ _ _ _ _ _ _ g => g

/-- Replaces the properties mapping of a schema node; used to model the
in-place deletion that defineProperties performs on the caller-owned
properties object (object-definition.js lines 151 to 156). -/
def Schema.setProperties : Schema → Option (List (String × Schema)) → Schema
  | .mk t _ i r a ao oo an e ti d idt rl n pv ex exm df g, p =>
      .mk t p i r a ao oo an e ti d idt rl n pv ex exm df g

/-- A convenience record mirroring the Schema constructor so concrete
schemas can be written with named fields; every field defaults to
absent. -/
structure SchemaView where
  type : Option String := none
  properties : Option (List (String × Schema)) := none
  items : Option Schema := none
  required : Option (List String) := none
  addProps : Option (Sum Bool Schema) := none
  allOf : Option (List Schema) := none
  oneOf : Option (List Schema) := none
  anyOf : Option (List Schema) := none
  enumVals : Option (List JVal) := none
  title : Option String := none
  description : Option String := none
  idTag : Option String := none
  rel : Option String := none
  noDisplay : Option Bool := none
  priv : Option Bool := none
  exclusive : Option (List (List String)) := none
  exampleV : Option JVal := none
  dflt : Option JVal := none
  genIncludeAP : Option Bool := none

def SchemaView.toSchema (v : SchemaView) : Schema :=
  .mk v.type v.properties v.items v.required v.addProps v.allOf v.oneOf v.anyOf
    v.enumVals v.title v.description v.idTag v.rel v.noDisplay v.priv v.exclusive
    v.exampleV v.dflt v.genIncludeAP

/-- JS truthiness of an optional string field (absent and the empty
string are falsy). -/
def strTruthy : Option String → Bool
  | none => false
  | some s => !s.isEmpty

/-!
The object-definition record built by ObjectDefinition.build
(object-definition.js lines 32 to 142).  The initial literal at lines
34 to 46 has allProps, requiredProps and optionalProps as empty maps;
finalization may turn requiredProps and optionalProps into null (none)
and allProps into undefined (none).  The two none values therefore mean
null for requiredProps and optionalProps and undefined for allProps,
matching what the source assigns.  Property values are JVal objects
produced by defineProperty.  The objects field holds the nested
definitions (or null) of oneOf and anyOf variants, already in their JS
object form.  The random per-build id is the ambient rid of the
context.
-/

abbrev PMap := List (String × JVal)

structure Defn where
  allProps : Option PMap
  requiredProps : Option PMap
  optionalProps : Option PMap
  objects : List JVal
  exampleS : String
  id : String
  title : Option String
  description : Option String
  enumVals : Option (List JVal)
  origJ : Option JVal

/-- Evaluation context: the pluggable formatter (external collaborator,
its format method may throw, hence Except) and the ambient random id
drawn by underscore random at object-definition.js line 45. -/
structure Ctx where
  fmt : JVal → Except String String
  rid : String

/-- Keys of an optional property map (undefined or null has no keys). -/
def pmKeysO : Option PMap → List String
  | none => []
  | some m => m.map Prod.fst

/-- Lookup in an optional property map. -/
def pmGetO : Option PMap → String → Option JVal
  | none, _ => none
  | some m, k => fsGet m k

/-- Lodash extend of a source map into a destination map. -/
def extendMap (dest src : PMap) : PMap :=
  src.foldl (fun a p => fsSet a p.1 p.2) dest

/-- The statement _.extend(self.allProps, src): mutates in place when
allProps is an object; when allProps is undefined, lodash boxes it and
the copied entries land in a discarded fresh object, so the value is
unchanged (object-definition.js lines 97, 100, 117, 120). -/
def extendP (dest : Option PMap) (src : PMap) : Option PMap :=
  match dest with
  | none => none
  | some m => some (extendMap m src)

/-- Lodash pick(object, paths): walks the paths in order, copying the
entries that exist; pick of undefined is empty. -/
def pickGo (m : PMap) (acc : PMap) : List String → PMap
  | [] => acc
  | r :: rs => pickGo m (match fsGet m r with | some v => fsSet acc r v | none => acc) rs

def pickP (m : Option PMap) (paths : List String) : PMap :=
  match m with
  | none => []
  | some fs => pickGo fs [] paths

/-- Lodash omit(object, paths): the object without the listed keys;
omit of undefined is empty. -/
def omitP (m : Option PMap) (paths : List String) : PMap :=
  match m with
  | none => []
  | some fs => fs.filter (fun p => p.1 ∉ paths)

/-!
Lodash merge with the array-concat customizer of object-definition.js
lines 77 to 81: when the destination value is an array the result is
dest.concat(src); otherwise plain objects merge recursively, source
values overwrite (null included), undefined source values keep the
destination entry.  Fuel-indexed so the definitions reduce.
-/

/-- Array concat of the customizer: appends the elements of an array
source, or the source itself otherwise. -/
def concatJV (al : List JVal) (bv : JVal) : JVal :=
  match bv with
  | .arr bl => .arr (al ++ bl)
  | x => .arr (al ++ [x])

mutual
def mergeJV : Nat → JVal → JVal → JVal
  | 0, _, b => b
  | n+1, a, b =>
    match b with
    | .obj bfs =>
      match a with
      | .obj afs => .obj (mergeFsObj n afs bfs)
      | _ => b
    | _ => b

def mergeFsObj : Nat → PMap → PMap → PMap
  | _, am, [] => am
  | n, am, p :: rest => mergeFsObj n (fsSet am p.1 (mergeEntryVal n (fsGet am p.1) p.2)) rest

def mergeEntryVal : Nat → Option JVal → JVal → JVal
  | _, some (.arr al), bv => concatJV al bv
  | n, some av, bv =>
    match bv with
    | .obj _ => mergeJV n av bv
    | .arr _ => bv
    | .undefinedV => av
    | _ => bv
  | _, none, bv => bv

end

/-- Lodash merge of two object definitions with the array-concat
customizer, field by field (object-definition.js line 77): allProps
merges as two plain objects (an undefined source keeps the
destination); requiredProps and optionalProps merge as object-or-null
values (a null source overwrites); objects concatenates (customizer on
an array destination); example and id are scalar overwrites; title and
description overwrite unless the source value is undefined; enum
concatenates when both sides are arrays; the serialized original
schemas deep-merge as generic values. -/
def mergeDefn (n : Nat) (a b : Defn) : Defn :=
  { allProps :=
      match b.allProps with
      | none => a.allProps
      | some bm =>
        match a.allProps with
        | none => some bm
        | some am => some (mergeFsObj n am bm)
    requiredProps :=
      match b.requiredProps with
      | none => none
      | some bm =>
        match a.requiredProps with
        | none => some bm
        | some am => some (mergeFsObj n am bm)
    optionalProps :=
      match b.optionalProps with
      | none => none
      | some bm =>
        match a.optionalProps with
        | none => some bm
        | some am => some (mergeFsObj n am bm)
    objects := a.objects ++ b.objects
    exampleS := b.exampleS
    id := b.id
    title := match b.title with | none => a.title | some t => some t
    description := match b.description with | none => a.description | some t => some t
    enumVals :=
      match b.enumVals with
      | none => a.enumVals
      | some bl =>
        match a.enumVals with
        | none => some bl
        | some al => some (al ++ bl)
    origJ :=
      match b.origJ with
      | none => a.origJ
      | some bv =>
        match a.origJ with
        | none => some bv
        | some av => some (mergeJV n av bv) }

/-- Conses a field when the value is present; JSON objects omit absent
keys. -/
def optField (k : String) (v : Option JVal) (rest : List (String × JVal)) : List (String × JVal) :=
  match v with
  | none => rest
  | some x => (k, x) :: rest

/-!
The JS form of a schema node, used for the _original back-reference
(object-definition.js line 131) and for JSON.stringify in the error
enrichment at line 136.  Fuel-indexed, burning one unit per node, so
that the definition reduces on concrete schemas.
-/
mutual
def schemaToJVal : Nat → Schema → JVal
  | 0, _ => .undefinedV
  | n+1, s =>
    .obj (
      optField "type" (s.type.map .str) (
      optField "properties" ((s.properties).map (fun ps => .obj (propsListToJVal n ps))) (
      optField "items" ((s.items).map (fun it => schemaToJVal n it)) (
      optField "required" ((s.required).map (fun l => .arr (l.map .str))) (
      optField "additionalProperties"
        ((s.addProps).map (fun ap =>
          match ap with
          | .inl b => .bool b
          | .inr t => schemaToJVal n t)) (
      optField "allOf" ((s.allOf).map (fun l => .arr (schemaListToJVal n l))) (
      optField "oneOf" ((s.oneOf).map (fun l => .arr (schemaListToJVal n l))) (
      optField "anyOf" ((s.anyOf).map (fun l => .arr (schemaListToJVal n l))) (
      optField "enum" ((s.enumVals).map .arr) (
      optField "title" (s.title.map .str) (
      optField "description" (s.description.map .str) (
      optField "id" (s.idTag.map .str) (
      optField "rel" (s.rel.map .str) (
      optField "noDisplay" (s.noDisplay.map .bool) (
      optField "private" (s.priv.map .bool) (
      optField "exclusive" ((s.exclusive).map (fun gs => .arr (gs.map (fun g => .arr (g.map .str))))) (
      optField "example" s.exampleV (
      optField "default" s.dflt (
      optField "generator" ((s.genIncludeAP).map (fun b => .obj [("includeAdditionalProperties", .bool b)]))
        [])))))))))))))))))))

def schemaListToJVal : Nat → List Schema → List JVal
  | 0, _ => []
  | _+1, [] => []
  | n+1, s :: rest => schemaToJVal n s :: schemaListToJVal n rest

def propsListToJVal : Nat → List (String × Schema) → List (String × JVal)
  | 0, _ => []
  | _+1, [] => []
  | n+1, p :: rest => (p.1, schemaToJVal n p.2) :: propsListToJVal n rest
end

/-- Quotes and minimally escapes a string for JSON output. -/
def jsonQuote (s : String) : String :=
  "\"" ++ String.mk (s.data.foldr (fun c acc =>
    if c = '\"' then '\\' :: '\"' :: acc
    else if c = '\\' then '\\' :: '\\' :: acc
    else if c = '\n' then '\\' :: 'n' :: acc
    else c :: acc) []) ++ "\""

/-!
JSON.stringify on JS values (the platform builtin used at
object-definition.js line 136): undefined-valued object fields are
skipped, undefined array elements serialize as null.  Fuel-indexed.
-/
mutual
def jsonOfJVal : Nat → JVal → String
  | 0, _ => ""
  | n+1, v =>
    match v with
    | .undefinedV => "undefined"
    | .nullv => "null"
    | .bool b => if b then "true" else "false"
    | .num i => toString i
    | .str s => jsonQuote s
    | .arr l => "[" ++ String.intercalate "," (jsonArrList n l) ++ "]"
    | .obj fs => "\x7b" ++ String.intercalate "," (jsonObjList n fs) ++ "\x7d"

def jsonArrList : Nat → List JVal → List String
  | 0, _ => []
  | _+1, [] => []
  | n+1, v :: rest =>
    (match v with
     | .undefinedV => "null"
     | x => jsonOfJVal n x) :: jsonArrList n rest

def jsonObjList : Nat → List (String × JVal) → List String
  | 0, _ => []
  | _+1, [] => []
  | n+1, p :: rest =>
    match p.2 with
    | .undefinedV => jsonObjList n rest
    | x => (jsonQuote p.1 ++ ":" ++ jsonOfJVal n x) :: jsonObjList n rest
end

/-- JSON.stringify of a schema node. -/
def stringifySchema (n : Nat) (s : Schema) : String :=
  jsonOfJVal n (schemaToJVal n s)

/-- The message of the error thrown at object-definition.js line 136
when example extraction or formatting fails. -/
def enrichMsg (n : Nat) (s : Schema) (e : String) : String :=
  "Error preparing data for object: " ++ stringifySchema n s ++ " " ++ e

/-- The JS object form of a built definition, with the keys in the
order the source inserts them (the literal at object-definition.js
lines 34 to 46, then title, description, enum and _original). -/
def defnToJVal (d : Defn) : JVal :=
  .obj [
    ("allProps", match d.allProps with | none => .undefinedV | some m => .obj m),
    ("requiredProps", match d.requiredProps with | none => .nullv | some m => .obj m),
    ("optionalProps", match d.optionalProps with | none => .nullv | some m => .obj m),
    ("objects", .arr d.objects),
    ("example", .str d.exampleS),
    ("id", .str d.id),
    ("title", match d.title with | none => .undefinedV | some t => .str t),
    ("description", match d.description with | none => .undefinedV | some t => .str t),
    ("enum", match d.enumVals with | none => .undefinedV | some l => .arr l),
    ("_original", match d.origJ with | none => .undefinedV | some v => v)]

/-- ASCII upper-casing of one character (String.prototype.toUpperCase
on the method names this code upper-cases). -/
def chUp (c : Char) : Char :=
  if 97 ≤ c.toNat ∧ c.toNat ≤ 122 then Char.ofNat (c.toNat - 32) else c

/-- ASCII lower-casing of one character. -/
def chLow (c : Char) : Char :=
  if 65 ≤ c.toNat ∧ c.toNat ≤ 90 then Char.ofNat (c.toNat + 32) else c

def strUp (s : String) : String := String.mk (s.data.map chUp)

def strLow (s : String) : String := String.mk (s.data.map chLow)

/-- Leading double-underscore test of String.prototype.startsWith as
used at the extractor line 98. -/
def hasDunder (s : String) : Bool := s.data.take 2 = ['_', '_']

/-- Message of the ReferenceError thrown by the extractor when called
on a falsy component (extractor lines 23 to 25). -/
def refMsg : String := "No schema received to generate example data"

/-- Error marker for exhausted modelling fuel; no confirmed theorem
below asserts it as an outcome. -/
def fuelMsg : String := "model out of fuel"

/-- Message standing for the TypeError JS raises on a property access
on null; reachable only through schema shapes no claim exercises (for
example an allOf member that is both closed and noDisplay). -/
def typeErrMsg : String := "TypeError: property access on null"

/-- Base-property lookup of the extractor (lines 146 to 151): the
example value if the key is present, else the default value, else
undefined.  Schema nodes in this model are always plain objects, so
the non-object unknown branch of the source is statically dead. -/
def getExampleDataFromItem (c : Schema) : JVal :=
  match c.exampleV with
  | some e => e
  | none => c.dflt.getD .undefinedV

/-- Mutual-exclusion pruning (extractor lines 71 to 77 and 124 to
130): for every group, deletes every member except the first from the
result. -/
def applyExclusive (exc : Option (List (List String))) (v : JVal) : JVal :=
  match exc with
  | none => v
  | some groups => groups.foldl (fun acc g => (g.drop 1).foldl objDelete acc) v

/-- The example value of an items subschema, with the truthiness test
of the source (extractor line 107). -/
def itemsExampleVal (it : Schema) : JVal := it.exampleV.getD .undefinedV

/-- The strict test additionalProperties === false used by both the
resolver and the extractor to recognize a closed schema. -/
def isClosedAP : Option (Sum Bool Schema) → Bool
  | some (.inl false) => true
  | _ => false

/-- Pseudo-properties enumerated when a schema-valued or boolean
additionalProperties object is handed to mapPropertiesToExamples
(extractor line 64).  Booleans have no enumerable keys, so the result
is faithfully empty; a schema-valued additionalProperties would have
its raw JS keys walked as pseudo-properties, which has no counterpart
in the structured model and is not exercised by any theorem below (the
generator opt-in flag is never set there). -/
def apPseudoProps : Option (Sum Bool Schema) → Option (List (String × Schema))
  | some (.inl _) => none
  | some (.inr _) => none
  | none => none

/-!
ExampleDataExtractor.extract and mapPropertiesToExamples
(src/unnamed/part_000 lines 19 to 140), fuel-indexed.  extract takes
the component and root as optional schemas because the source passes
possibly-undefined values for both (the falsy-component guard at line
23 is the ReferenceError).  Thrown errors are Except.error values.
-/
mutual
def extract : Nat → Option Schema → Option Schema → Except String JVal
  | 0, _, _ => .error fuelMsg
  | n+1, comp, root =>
    match comp with
    | none => .error refMsg
    | some c =>
      -- id-scope rebinding, extractor lines 28 to 30
      let root2 := if strTruthy c.idTag then some c else root
      -- array early return, extractor lines 32 to 34
      if c.type = some "array" then
        (extract n c.items root2).map (fun v => .arr [v])
      else
        -- the dispatch on composition keywords (extractor lines 36 to
        -- 60), the optional additionalProperties merge (lines 63 to
        -- 65) and the empty-result fallback (lines 67 to 69), with the
        -- exclusive pruning of lines 71 to 77 applied to the final
        -- reduced value
        (do
          let r1 ←
            if c.allOf.isSome then
              extractAllOf n (c.allOf.getD []) root2 (.obj [])
            else if c.oneOf.isSome then
              extract n (c.oneOf.getD []).head? root2
            else if c.anyOf.isSome then
              extract n (c.anyOf.getD []).head? root2
            else if c.rel = some "self" then
              extract n root2 root2
            else if c.properties.isSome then
              mapPropertiesToExamples n c.properties root2
            else
              pure (getExampleDataFromItem c)
          let r2 ←
            if c.addProps.isSome && c.genIncludeAP = some true then
              (mapPropertiesToExamples n (apPseudoProps c.addProps) root2).map (extendJV r1)
            else
              pure r1
          if isEmptyJV r2 then mapPropertiesToExamples n c.properties root2
          else pure r2).map (applyExclusive c.exclusive)

def extractAllOf : Nat → List Schema → Option Schema → JVal → Except String JVal
  | 0, _, _, _ => .error fuelMsg
  | _+1, [], _, acc => pure acc
  | n+1, sub :: rest, root, acc => do
    let acc2 ←
      if isClosedAP sub.addProps then
        -- a closed member replaces the accumulator, extractor lines 39 to 42
        extract n (some sub) root
      else
        (extract n (some sub) root).map (extendJV acc)
    extractAllOf n rest root acc2

def mapPropertiesToExamples : Nat → Option (List (String × Schema)) → Option Schema → Except String JVal
  | 0, _, _ => .error fuelMsg
  | n+1, props, schema =>
    (mapPropsList n (props.getD []) schema []).map .obj

def mapPropsList : Nat → List (String × Schema) → Option Schema → PMap → Except String PMap
  | 0, _, _, _ => .error fuelMsg
  | _+1, [], _, acc => pure acc
  | n+1, (pn, pc) :: rest, schema, acc =>
    -- visibility opt-out, extractor lines 98 to 100
    if hasDunder pn || pc.priv = some true then
      mapPropsList n rest schema acc
    else do
      let ex ← propExample n pc schema
      -- the ID naming special case, extractor line 138
      mapPropsList n rest schema (fsSet acc (if pn = "ID" then strLow pn else pn) ex)

def propExample : Nat → Schema → Option Schema → Except String JVal
  | 0, _, _ => .error fuelMsg
  | n+1, pc, schema => do
    let ex0 := getExampleDataFromItem pc
    let ex ←
      if pc.rel = some "self" then
        extract n schema schema
      else if pc.type = some "array" && pc.items.isSome && !(truthy ex0) then
        match pc.items with
        | some it =>
          if truthy (itemsExampleVal it) then pure (JVal.arr [itemsExampleVal it])
          else (extract n (some it) schema).map (fun v => .arr [v])
        | none => (extract n none schema).map (fun v => .arr [v])
      else if strTruthy pc.idTag && !(truthy ex0) then
        extract n (some pc) (some pc)
      else if pc.properties.isSome then
        mapPropertiesToExamples n pc.properties schema
      else if pc.oneOf.isSome || pc.anyOf.isSome then
        extract n (some pc) schema
      else if pc.allOf.isSome then
        extractPropAllOf n (pc.allOf.getD []) schema (if truthy ex0 then ex0 else .obj [])
      else
        pure ex0
    -- per-property exclusive pruning, extractor lines 124 to 130
    pure (applyExclusive pc.exclusive ex)

def extractPropAllOf : Nat → List Schema → Option Schema → JVal → Except String JVal
  | 0, _, _, _ => .error fuelMsg
  | _+1, [], _, acc => pure acc
  | n+1, item :: rest, schema, acc => do
    let v ← extract n (some item) schema
    extractPropAllOf n rest schema (extendJV acc v)
end

/-- Lookup in a properties mapping of schema nodes. -/
def sGet (fs : List (String × Schema)) (k : String) : Option Schema :=
  match fs with
  | [] => none
  | p :: rest => if p.1 = k then some p.2 else sGet rest k

/-- The deletion loop of defineProperties (object-definition.js lines
152 to 156): walks the keys of the caller-owned properties object and
deletes in place every entry whose value carries noDisplay === true. -/
def ndlGo (st : List (String × Schema)) : List String → List (String × Schema)
  | [] => st
  | k :: ks =>
    ndlGo
      (match sGet st k with
       | some v => if v.noDisplay = some true then st.filter (fun p => p.1 ≠ k) else st
       | none => st) ks

def noDisplayLoop (props : List (String × Schema)) : List (String × Schema) :=
  ndlGo props (props.map Prod.fst)

/-- The test _.isPlainObject(additionalProperties), true exactly for a
schema-valued additionalProperties. -/
def isSchemaAP : Option (Sum Bool Schema) → Bool
  | some (.inr _) => true
  | _ => false

/-- Guarded deletion of one key from an optional property map,
modelling if (self.allProps && self.allProps[key]) delete ... at
object-definition.js lines 63 to 71: skips an undefined or null map
and skips falsy values. -/
def delIfTruthy (m : Option PMap) (k : String) : Option PMap :=
  match m with
  | none => none
  | some fs =>
    match fsGet fs k with
    | some v => if truthy v then some (fs.filter (fun p => p.1 ≠ k)) else some fs
    | none => some fs

/-- The noDisplay deletion pass of the allOf loop (object-definition.js
lines 61 to 73): for every property of the member flagged noDisplay,
deletes that key from the accumulated allProps, optionalProps and
requiredProps.  When the accumulator is null the source reads
self.allProps off null and throws. -/
def noDisplayPass (props : List (String × Schema)) (self : Option Defn) : Except String (Option Defn) :=
  match props with
  | [] => pure self
  | (k, v) :: rest =>
    if v.noDisplay = some true then
      match self with
      | none => .error typeErrMsg
      | some d =>
        noDisplayPass rest (some
          { d with allProps := delIfTruthy d.allProps k,
                   optionalProps := delIfTruthy d.optionalProps k,
                   requiredProps := delIfTruthy d.requiredProps k })
    else noDisplayPass rest self

/-- Replaces a field of a JS object value, leaving other values
unchanged. -/
def objSetField (o : JVal) (k : String) (v : JVal) : JVal :=
  match o with
  | .obj fs => .obj (fsSet fs k v)
  | _ => o

/-- The loop at object-definition.js lines 107 to 109: extends the
allProps of every nested variant definition with the resolved
additional properties; a null variant (a noDisplay alternative) makes
the source read allProps off null and throw; a variant whose allProps
is undefined keeps it (the extension lands in a discarded box). -/
def extendObjectsAllProps (objs : List JVal) (addtl : PMap) : Except String (List JVal) :=
  match objs with
  | [] => pure []
  | o :: rest => do
    match o with
    | .nullv => .error typeErrMsg
    | _ =>
      let o2 := match objGet o "allProps" with
                | .obj fs => objSetField o "allProps" (.obj (extendMap fs addtl))
                | _ => o
      let rest2 ← extendObjectsAllProps rest addtl
      pure (o2 :: rest2)

/-- The object literal at object-definition.js lines 34 to 46. -/
def initialDefn (rid : String) : Defn :=
  { allProps := some [], requiredProps := some [], optionalProps := some [],
    objects := [], exampleS := "", id := rid,
    title := none, description := none, enumVals := none, origJ := none }

/-- State of the allOf fold at object-definition.js lines 52 to 84: the
accumulator self (null after a noDisplay closed member replaced it),
the accumulated required list, and the addPropsFlag that suppresses
merging once a closed member was seen. -/
structure BState where
  self : Option Defn
  required : List String
  flag : Bool

/-!
ObjectDefinition.build, defineProperties and defineProperty
(object-definition.js lines 32 to 224), fuel-indexed.  build returns
Except String (Option Defn): the none result is the null returned for
a noDisplay schema (lines 48 to 50); thrown errors are Except.error.
-/
mutual
def build : Nat → Ctx → Schema → Except String (Option Defn)
  | 0, _, _ => .error fuelMsg
  | n+1, ctx, s =>
    -- noDisplay early return, lines 48 to 50
    if s.noDisplay = some true then pure none
    else
      match buildCore n ctx s with
      | .error e => .error e
      | .ok (sMut, d) =>
        -- example extraction and formatting inside try/catch, lines 133 to 137
        match (do
            let v ← extract n (some sMut) none
            ctx.fmt v : Except String String) with
        | .ok ex =>
          -- allProps becomes undefined when empty, lines 138 to 140
          pure (some
            { d with exampleS := ex,
                     allProps := match d.allProps with
                                 | some m => if m.isEmpty then none else some m
                                 | none => none })
        | .error e => .error (enrichMsg n sMut e)

def buildCore : Nat → Ctx → Schema → Except String (Schema × Defn)
  | 0, _, _ => .error fuelMsg
  | n+1, ctx, s => do
    -- lines 33 to 46: required default and the initial literal
    let st0 : BState :=
      { self := some (initialDefn ctx.rid), required := s.required.getD [], flag := false }
    -- lines 52 to 85: allOf fold
    let st ←
      match s.allOf with
      | some l => allOfList n ctx st0 l
      | none => pure st0
    -- lines 87 to 91: oneOf and anyOf variants
    let st ←
      if s.oneOf.isSome || s.anyOf.isSome then do
        let objs ← buildObjList n ctx ((s.oneOf).getD ((s.anyOf).getD []))
        match st.self with
        | none => .error typeErrMsg
        | some d => pure { st with self := some { d with objects := objs } }
      else pure st
    -- lines 93 to 102: own properties (with the in-place noDisplay
    -- filtering of defineProperties threaded back into the schema)
    let pr ←
      match s.properties with
      | some props =>
        match st.self with
        | none => .error typeErrMsg
        | some d => do
          let d := if isClosedAP s.addProps then { d with allProps := some [] } else d
          let (props2, defs) ← defineProperties n ctx (some props)
          let d := { d with allProps := extendP d.allProps defs }
          let d ←
            if isSchemaAP s.addProps then do
              let (_, defs2) ← defineProperties n ctx (apPseudoProps s.addProps)
              pure { d with allProps := extendP d.allProps defs2 }
            else pure d
          pure (s.setProperties (some props2), { st with self := some d })
      | none => pure (s, st)
    let sMut := pr.1
    let st := pr.2
    -- lines 104 to 110: additionalProperties-as-schema into every variant
    let st ←
      if isSchemaAP s.addProps then do
        let (_, addtl) ← defineProperties n ctx (apPseudoProps s.addProps)
        match st.self with
        | none => .error typeErrMsg
        | some d => do
          let objs2 ← extendObjectsAllProps d.objects addtl
          pure { st with self := some { d with objects := objs2 } }
      else pure st
    -- lines 112 to 122: items
    let st ←
      match s.items with
      | some it =>
        match st.self with
        | none => .error typeErrMsg
        | some d => do
          let d := if isClosedAP it.addProps then { d with allProps := some [] } else d
          let (_, idefs) ← defineProperties n ctx it.properties
          let d := { d with allProps := extendP d.allProps idefs }
          let d ←
            if isSchemaAP it.addProps then do
              let (_, idefs2) ← defineProperties n ctx (apPseudoProps it.addProps)
              pure { d with allProps := extendP d.allProps idefs2 }
            else pure d
          pure { st with self := some d }
      | none => pure st
    -- lines 124 to 131: finalization fields and the partition
    match st.self with
    | none => .error typeErrMsg
    | some d =>
      let rp := pickP d.allProps st.required
      let op := omitP d.allProps st.required
      pure (sMut,
        { d with
          title := s.title, description := s.description, enumVals := s.enumVals,
          requiredProps := if rp.isEmpty then none else some rp,
          optionalProps := if op.isEmpty then none else some op,
          origJ := some (schemaToJVal n sMut) })

def allOfList : Nat → Ctx → BState → List Schema → Except String BState
  | 0, _, _, _ => .error fuelMsg
  | _+1, _, st, [] => pure st
  | n+1, ctx, st, m :: rest => do
    let st2 ← allOfStep n ctx st m
    allOfList n ctx st2 rest

def allOfStep : Nat → Ctx → BState → Schema → Except String BState
  | 0, _, _, _ => .error fuelMsg
  | n+1, ctx, st, m =>
    -- line 55: required accumulation
    let req2 := st.required ++ (m.required.getD [])
    if isClosedAP m.addProps then do
      -- lines 56 to 59: a closed member replaces the accumulator and
      -- sets the flag; its own noDisplay pass runs against the fresh
      -- accumulator (lines 61 to 73)
      let b ← build n ctx m
      let s2 ← noDisplayPass (m.properties.getD []) b
      pure { self := s2, required := req2, flag := true }
    else do
      -- lines 61 to 73: noDisplay deletions against the accumulator
      let s2 ← noDisplayPass (m.properties.getD []) st.self
      if st.flag then
        -- line 75: the flag suppresses merging
        pure { self := s2, required := req2, flag := true }
      else
        match s2 with
        | none => do
          -- unreachable shape kept for evaluation-order fidelity:
          -- the member is still built before lodash merge discards a
          -- null destination
          let _ ← build n ctx m
          pure { self := none, required := req2, flag := false }
        | some d => do
          -- lines 76 to 81: deep merge with the array-concat customizer
          let b ← build n ctx m
          match b with
          | none => pure { self := some d, required := req2, flag := false }
          | some bd => pure { self := some (mergeDefn n d bd), required := req2, flag := false }

def buildObjList : Nat → Ctx → List Schema → Except String (List JVal)
  | 0, _, _ => .error fuelMsg
  | _+1, _, [] => pure []
  | n+1, ctx, v :: rest => do
    let b ← build n ctx v
    let rest2 ← buildObjList n ctx rest
    pure ((match b with | some d => defnToJVal d | none => .nullv) :: rest2)

def defineProperties : Nat → Ctx → Option (List (String × Schema)) → Except String ((List (String × Schema)) × PMap)
  | 0, _, _ => .error fuelMsg
  | n+1, ctx, props => do
    -- lines 152 to 156: in-place deletion of noDisplay entries from
    -- the caller-owned mapping, returned as the post-call state
    let props2 := noDisplayLoop (props.getD [])
    -- line 157: mapValues over what remains
    let defs ← definePropsList n ctx props2
    pure (props2, defs)

def definePropsList : Nat → Ctx → List (String × Schema) → Except String PMap
  | 0, _, _ => .error fuelMsg
  | _+1, _, [] => pure []
  | n+1, ctx, (k, p) :: rest => do
    let v ← defineProperty n ctx p
    let rest2 ← definePropsList n ctx rest
    pure ((k, v) :: rest2)

def defineProperty : Nat → Ctx → Schema → Except String JVal
  | 0, _, _ => .error fuelMsg
  | n+1, ctx, p =>
    -- lines 169 to 171: noDisplay gives null
    if p.noDisplay = some true then pure .nullv
    else do
      let defn ←
        if p.allOf.isSome then do
          -- lines 174 to 175: an allOf property resolves via build
          let b ← build n ctx p
          match b with
          | some d => pure (defnToJVal d)
          | none => .error typeErrMsg
        else if p.oneOf.isSome || p.anyOf.isSome then do
          -- lines 179 to 188: alternatives, objects and arrays via
          -- build, scalars via defineProperty with the example
          -- promoted onto the parent definition
          let key := if p.oneOf.isSome then "oneOf" else "anyOf"
          let acc ← altsFold n ctx ((p.oneOf).getD ((p.anyOf).getD [])) ([], none)
          let base : PMap := match acc.2 with | some e => [("example", e)] | none => []
          pure (.obj (fsSet base key (.arr acc.1)))
        else if p.properties.isSome then do
          -- lines 192 to 193
          let (_, defs) ← defineProperties n ctx p.properties
          pure (.obj [("properties", .obj defs)])
        else
          match p.items with
          | some it =>
            if it.properties.isSome then do
              -- lines 194 to 195
              let (_, defs) ← defineProperties n ctx it.properties
              pure (.obj [("properties", .obj defs)])
            else pure (.obj [])
          | none => pure (.obj [])
      -- lines 198 to 203: type from the first enum entry or the node
      let defn := match p.enumVals with
        | some l => objSetField defn "type" (.str (typeofJV (l.headD .undefinedV)))
        | none => objSetField defn "type" (match p.type with | some t => .str t | none => .undefinedV)
      -- lines 205 to 208: example back-fill when not already truthy
      let defn ←
        if !(truthy (objGet defn "example")) then do
          let exs ← getExampleFromProperty n ctx p
          pure (objSetField defn "example" (.str exs))
        else pure defn
      -- line 210: defaults from a full build of the property
      let b ← build n ctx p
      pure (defaultsJV defn (match b with | some d => defnToJVal d | none => .nullv))

def altsFold : Nat → Ctx → List Schema → (List JVal × Option JVal) → Except String (List JVal × Option JVal)
  | 0, _, _, _ => .error fuelMsg
  | _+1, _, [], acc => pure acc
  | n+1, ctx, a :: rest, acc =>
    if a.type = some "object" || a.type = some "array" then do
      -- lines 182 to 184
      let b ← build n ctx a
      altsFold n ctx rest (acc.1 ++ [match b with | some d => defnToJVal d | none => .nullv], acc.2)
    else do
      -- lines 185 to 187: defined.example is read off the result, so a
      -- null defined (noDisplay alternative) makes the source throw
      let defined ← defineProperty n ctx a
      match defined with
      | .nullv => .error typeErrMsg
      | dv => altsFold n ctx rest (acc.1 ++ [dv], some (objGet dv "example"))

def getExampleFromProperty : Nat → Ctx → Schema → Except String String
  | 0, _, _ => .error fuelMsg
  | n+1, ctx, p => do
    -- lines 218 to 224
    let extracted ← mapPropertiesToExamples n (some [("prop", p)]) none
    ctx.fmt (objGet extracted "prop")
end

/-!
The cURL builder (src/lib/helpers/curl.js).  The formatter is the
external pluggable collaborator shared with the resolver, passed as a
parameter; generate, buildFlag and buildQueryString are embedded
directly.  Strings containing a brace or a single quote write them
with hexadecimal escapes.
-/

/-- config.NEW_LINE, curl.js line 11: a space, a backslash and a
newline. -/
def curlNewLine : String := " \\\n"

/-- config.HEADER_SEPARATOR, curl.js line 10. -/
def curlHeaderSep : String := ": "

/-- Lodash repeat of a space. -/
def spacesN (n : Nat) : String := String.mk (List.replicate n ' ')

/-- JS Array.prototype.join with a separator. -/
def joinSep (sep : String) : List String → String
  | [] => ""
  | x :: xs => xs.foldl (fun acc y => acc ++ sep ++ y) x

/-- buildFlag (curl.js lines 64 to 67): joins the indent plus a dash,
the flag name, a space, and the quoted value with the empty separator,
which is plain concatenation; the quote defaults to a double quote when
the argument is undefined. -/
def buildFlag (type value : String) (indents : Nat) (quoteType : Option String) : String :=
  let q := quoteType.getD "\""
  spacesN indents ++ "-" ++ type ++ " " ++ q ++ value ++ q

/-- buildQueryString (curl.js lines 75 to 81): reduce over the data
entries starting from the first separator. -/
def buildQueryString (data : JVal) (noQueryString : Bool) : String :=
  let firstJoin := if noQueryString then "&" else "?"
  (enumProps data).foldl (fun str p =>
    let conn := if str = firstJoin then "" else "&"
    str ++ conn ++ p.1 ++ "=" ++ jsToString p.2) firstJoin

/-- formatData (curl.js lines 53 to 55): delegates to the external
formatter (the replacer and indent arguments belong to the formatter
interface). -/
def formatData (fmt : JVal → Except String String) (data : JVal) : Except String String :=
  fmt data

/-- generate (curl.js lines 23 to 47). -/
def generate (fmt : JVal → Except String String) (uri : String) (method : Option String)
    (headers : Option (List (String × String))) (data : Option JVal) : Except String String :=
  -- line 28: method = method || GET
  let meth := match method with | none => "GET" | some s => if s.isEmpty then "GET" else s
  -- lines 30 to 32: GET with data appends a query string
  let uri2 :=
    match data with
    | some v => if truthy v && strLow meth = "get" then uri ++ buildQueryString v false else uri
    | none => uri
  -- line 34: the first line, with the method flag explicitly unquoted
  let str := joinSep " " ["curl", buildFlag "X" (strUp meth) 0 (some ""), "\"" ++ uri2 ++ "\""]
  -- lines 36 to 40: one H flag per header
  let hflags :=
    match headers with
    | none => []
    | some hs => hs.map (fun p => buildFlag "H" (p.1 ++ curlHeaderSep ++ p.2) 5 none)
  do
    -- lines 42 to 44: the data flag for non-GET methods
    let dflags ←
      match data with
      | some v =>
        if truthy v && strLow meth ≠ "get" then do
          let fd ← formatData fmt v
          pure [buildFlag "-data" fd 5 (some "\x27")]
        else pure []
      | none => pure ([] : List String)
    -- line 46: join everything with the line continuation
    pure (str ++ curlNewLine ++ joinSep curlNewLine (hflags ++ dflags))

/-!
Supporting lemmas: monadic simplification for Except, association-list
facts for the lodash helpers, the filter characterizations of the
visibility loops, and the key-absence facts for exclusive pruning.
-/

theorem exBindOk {α β : Type} (a : α) (f : α → Except String β) :
    (Except.ok a >>= f) = f a := rfl

theorem exBindErr {α β : Type} (e : String) (f : α → Except String β) :
    ((Except.error e : Except String α) >>= f) = Except.error e := rfl

theorem exPure {α : Type} (a : α) : (pure a : Except String α) = Except.ok a := rfl

theorem exMapOk {α β : Type} (f : α → β) (a : α) :
    (Except.ok a : Except String α).map f = Except.ok (f a) := rfl

theorem exMapErr {α β : Type} (f : α → β) (e : String) :
    (Except.error e : Except String α).map f = Except.error e := rfl

theorem fsGet_fsSet (fs : List (String × JVal)) (k k2 : String) (v : JVal) :
    fsGet (fsSet fs k v) k2 = if k2 = k then some v else fsGet fs k2 := by
  induction fs with
  | nil =>
    simp only [fsSet, fsGet]
    by_cases h : k = k2
    · subst h; simp
    · rw [if_neg h, if_neg (fun hh => h hh.symm)]
  | cons p rest ih =>
    simp only [fsSet]
    by_cases h : p.1 = k
    · simp only [if_pos h, fsGet]
      by_cases h2 : k2 = k
      · simp [h2]
      · rw [if_neg (fun hh => h2 hh.symm), if_neg h2, if_neg (fun hh => h2 (hh.symm.trans h))]
    · simp only [if_neg h, fsGet]
      by_cases h2 : p.1 = k2
      · rw [if_pos h2, if_pos h2, if_neg (fun hh => h (h2.trans hh))]
      · rw [if_neg h2, if_neg h2, ih]

theorem fsGet_eq_none_of_not_mem (fs : List (String × JVal)) (k : String)
    (h : k ∉ fs.map Prod.fst) : fsGet fs k = none := by
  induction fs with
  | nil => rfl
  | cons p rest ih =>
    simp only [List.map_cons, List.mem_cons] at h
    push_neg at h
    simp only [fsGet, if_neg (fun hh : p.1 = k => h.1 hh.symm)]
    exact ih h.2

theorem fsGet_append (a b : List (String × JVal)) (k : String) :
    fsGet (a ++ b) k = match fsGet a k with | some v => some v | none => fsGet b k := by
  induction a with
  | nil => rfl
  | cons p rest ih =>
    simp only [List.cons_append, fsGet]
    by_cases h : p.1 = k
    · simp [h]
    · simp only [if_neg h]; exact ih

theorem fsSet_append_of_absent (fs : List (String × JVal)) (k : String) (v : JVal)
    (h : fsGet fs k = none) : fsSet fs k v = fs ++ [(k, v)] := by
  induction fs with
  | nil => rfl
  | cons p rest ih =>
    simp only [fsGet] at h
    by_cases hp : p.1 = k
    · rw [if_pos hp] at h; exact absurd h (by simp)
    · rw [if_neg hp] at h
      simp only [fsSet, if_neg hp, List.cons_append, List.cons.injEq, true_and]
      exact ih h

theorem keys_fsSet_of_absent (fs : List (String × JVal)) (k : String) (v : JVal)
    (h : fsGet fs k = none) : (fsSet fs k v).map Prod.fst = fs.map Prod.fst ++ [k] := by
  rw [fsSet_append_of_absent fs k v h]; simp

theorem extendMap_nil (src : List (String × JVal)) (h : (src.map Prod.fst).Nodup) :
    extendMap [] src = src := by
  suffices hgen : ∀ (acc : List (String × JVal)),
      (∀ k ∈ src.map Prod.fst, fsGet acc k = none) →
      extendMap acc src = acc ++ src by
    simpa using hgen [] (by intro k _; rfl)
  induction src with
  | nil => intro acc _; simp [extendMap]
  | cons p rest ih =>
    intro acc hacc
    simp only [List.map_cons, List.nodup_cons] at h
    have h1 : fsGet acc p.1 = none := hacc p.1 (by simp)
    have hstep : extendMap acc (p :: rest) = extendMap (acc ++ [p]) rest := by
      simp only [extendMap, List.foldl_cons]
      rw [fsSet_append_of_absent acc p.1 p.2 h1]
    rw [hstep, ih h.2 (acc ++ [p]) ?_, List.append_assoc]
    · simp
    · intro k hk
      rw [fsGet_append]
      have hkp : k ≠ p.1 := fun he => h.1 (he ▸ hk)
      rw [hacc k (by simp [hk]), fsGet_eq_none_of_not_mem [p] k (by simpa using hkp)]

theorem keys_extendMap_nil (src : List (String × JVal)) (h : (src.map Prod.fst).Nodup) :
    (extendMap [] src).map Prod.fst = src.map Prod.fst := by
  rw [extendMap_nil src h]

theorem fsGet_pickGo (m : PMap) :
    ∀ (rs : List String) (acc : PMap) (k : String),
      fsGet (pickGo m acc rs) k =
        if k ∈ rs ∧ (fsGet m k).isSome then fsGet m k else fsGet acc k := by
  intro rs
  induction rs with
  | nil => intro acc k; simp [pickGo]
  | cons r rs ih =>
    intro acc k
    simp only [pickGo]
    rcases hm : fsGet m r with _ | v
    · rw [ih acc k]
      by_cases hk : k = r
      · subst hk
        rw [hm] at *
        simp [hm]
      · simp [List.mem_cons, hk]
    · rw [ih _ k]
      by_cases hk : k = r
      · subst hk
        have hms : (fsGet m k).isSome := by rw [hm]; rfl
        conv_rhs => rw [if_pos ⟨List.mem_cons_self k rs, hms⟩]
        by_cases h2 : k ∈ rs ∧ (fsGet m k).isSome = true
        · rw [if_pos h2]
        · rw [if_neg h2, fsGet_fsSet, if_pos rfl, hm]
      · have h1 : fsGet (fsSet acc r v) k = fsGet acc k := by
          rw [fsGet_fsSet]; exact if_neg hk
        rw [h1]
        by_cases h2 : k ∈ rs ∧ (fsGet m k).isSome
        · rw [if_pos h2, if_pos ⟨List.mem_cons.mpr (Or.inr h2.1), h2.2⟩]
        · rw [if_neg h2, if_neg ?_]
          rintro ⟨hmem, hsome⟩
          rcases List.mem_cons.mp hmem with he | hmm
          · exact hk he
          · exact h2 ⟨hmm, hsome⟩

theorem pickGo_ne_nil (m : PMap) :
    ∀ (rs : List String) (acc : PMap), acc ≠ [] → pickGo m acc rs ≠ [] := by
  intro rs
  induction rs with
  | nil => intro acc h; simpa [pickGo] using h
  | cons r rs ih =>
    intro acc h
    simp only [pickGo]
    rcases hm : fsGet m r with _ | v
    · exact ih acc h
    · refine ih _ ?_
      cases acc with
      | nil => simp [fsSet]
      | cons q rest =>
        simp only [fsSet]
        split <;> simp

theorem pickGo_nil_iff (m : PMap) :
    ∀ (rs : List String), pickGo m [] rs = [] ↔ ∀ r ∈ rs, fsGet m r = none := by
  intro rs
  induction rs with
  | nil => simp [pickGo]
  | cons r rs ih =>
    simp only [pickGo]
    rcases hm : fsGet m r with _ | v
    · rw [ih]
      constructor
      · intro h r2 hr2
        rcases List.mem_cons.mp hr2 with he | hmm
        · subst he; exact hm
        · exact h r2 hmm
      · intro h r2 hr2; exact h r2 (List.mem_cons.mpr (Or.inr hr2))
    · constructor
      · intro h
        exact absurd h (pickGo_ne_nil m rs [(r, v)] (by simp))
      · intro h
        have := h r (by simp)
        rw [hm] at this; exact absurd this (by simp)

theorem fsGet_omitFilter (fs : PMap) (R : List String) (k : String) :
    fsGet (fs.filter (fun p => p.1 ∉ R)) k = if k ∈ R then none else fsGet fs k := by
  induction fs with
  | nil => by_cases h : k ∈ R <;> simp [h, fsGet]
  | cons p rest ih =>
    by_cases hp : p.1 ∈ R
    · rw [List.filter_cons_of_neg (by simpa using hp)]
      rw [ih]
      by_cases hk : k ∈ R
      · simp [hk]
      · have hpk : p.1 ≠ k := fun he => hk (he ▸ hp)
        simp only [if_neg hk, fsGet, if_neg hpk]
    · rw [List.filter_cons_of_pos (by simpa using hp)]
      by_cases hpk : p.1 = k
      · subst hpk
        simp [fsGet, hp]
      · simp only [fsGet, if_neg hpk]
        exact ih

theorem sGet_eq_of_mem (st : List (String × Schema)) (h : (st.map Prod.fst).Nodup)
    (p : String × Schema) (hp : p ∈ st) : sGet st p.1 = some p.2 := by
  induction st with
  | nil => cases hp
  | cons q rest ih =>
    rcases List.mem_cons.mp hp with he | hm
    · subst he; simp [sGet]
    · have hq : q.1 ≠ p.1 := by
        intro he
        exact (List.nodup_cons.mp (by simpa using h)).1
          (he ▸ List.mem_map_of_mem Prod.fst hm)
      simp only [sGet, if_neg hq]
      exact ih (List.nodup_cons.mp (by simpa using h)).2 hm

theorem sGet_none_not_mem (st : List (String × Schema)) (k : String)
    (h : sGet st k = none) : ∀ p ∈ st, p.1 ≠ k := by
  induction st with
  | nil => intro p hp; cases hp
  | cons q rest ih =>
    intro p hp
    simp only [sGet] at h
    by_cases hq : q.1 = k
    · rw [if_pos hq] at h; exact absurd h (by simp)
    · rw [if_neg hq] at h
      rcases List.mem_cons.mp hp with he | hm
      · subst he; exact hq
      · exact ih h p hm

theorem nodupKeys_filter (st : List (String × Schema)) (q : String × Schema → Bool)
    (h : (st.map Prod.fst).Nodup) : ((st.filter q).map Prod.fst).Nodup :=
  List.Nodup.sublist (List.Sublist.map Prod.fst (List.filter_sublist st)) h

theorem ndlGo_spec :
    ∀ (ks : List String) (st : List (String × Schema)),
      (st.map Prod.fst).Nodup →
      ndlGo st ks = st.filter (fun p => ¬(p.1 ∈ ks ∧ p.2.noDisplay = some true)) := by
  intro ks
  induction ks with
  | nil =>
    intro st _
    simp [ndlGo]
  | cons k ks ih =>
    intro st hnd
    simp only [ndlGo]
    rcases hg : sGet st k with _ | v
    · rw [ih st hnd]
      apply List.filter_congr
      intro p hp
      have hpk : p.1 ≠ k := sGet_none_not_mem st k hg p hp
      simp [List.mem_cons, hpk]
    · dsimp only
      by_cases hv : v.noDisplay = some true
      · rw [if_pos hv]
        rw [ih _ (nodupKeys_filter st _ hnd)]
        rw [List.filter_filter]
        apply List.filter_congr
        intro p hp
        by_cases hpk : p.1 = k
        · have hpv : p.2 = v := by
            have h1 := sGet_eq_of_mem st hnd p hp
            rw [hpk, hg] at h1
            exact (Option.some.inj h1).symm
          simp [hpk, hpv, hv]
        · simp [List.mem_cons, hpk]
      · rw [if_neg hv]
        rw [ih st hnd]
        apply List.filter_congr
        intro p hp
        by_cases hpk : p.1 = k
        · have hpv : p.2 = v := by
            have h1 := sGet_eq_of_mem st hnd p hp
            rw [hpk, hg] at h1
            exact (Option.some.inj h1).symm
          simp [hpk, hpv, hv, List.mem_cons]
        · simp [List.mem_cons, hpk]

theorem noDisplayLoop_eq_filter (props : List (String × Schema))
    (h : (props.map Prod.fst).Nodup) :
    noDisplayLoop props = props.filter (fun p => ¬(p.2.noDisplay = some true)) := by
  rw [noDisplayLoop, ndlGo_spec (props.map Prod.fst) props h]
  apply List.filter_congr
  intro p hp
  simp [List.mem_map_of_mem Prod.fst hp]

theorem definePropsList_keys :
    ∀ (L : List (String × Schema)) (n : Nat) (ctx : Ctx) (defs : PMap),
      definePropsList n ctx L = .ok defs → defs.map Prod.fst = L.map Prod.fst := by
  intro L
  induction L with
  | nil =>
    intro n ctx defs h
    cases n with
    | zero => exact absurd h (by simp [definePropsList])
    | succ m =>
      simp only [definePropsList, exPure] at h
      cases h
      rfl
  | cons p rest ih =>
    intro n ctx defs h
    cases n with
    | zero => exact absurd h (by simp [definePropsList])
    | succ m =>
      rcases p with ⟨k, pc⟩
      simp only [definePropsList] at h
      rcases hdp : defineProperty m ctx pc with e | v <;> rw [hdp] at h
      · exact absurd h (by simp [exBindErr])
      · rw [exBindOk] at h
        rcases hrest : definePropsList m ctx rest with e | rest2 <;> rw [hrest] at h
        · exact absurd h (by simp [exBindErr])
        · rw [exBindOk, exPure] at h
          cases h
          simp only [List.map_cons, List.cons.injEq, true_and]
          exact ih m ctx rest2 hrest

theorem fsGet_filter_ne_self (fs : PMap) (k : String) :
    fsGet (fs.filter (fun p => p.1 ≠ k)) k = none := by
  induction fs with
  | nil => rfl
  | cons p rest ih =>
    by_cases hp : p.1 = k
    · rw [List.filter_cons_of_neg (by simp [hp])]
      exact ih
    · rw [List.filter_cons_of_pos (by simp [hp])]
      simp only [fsGet, if_neg hp]
      exact ih

theorem fsGet_filter_none (fs : PMap) (q : String × JVal → Bool) (k : String)
    (h : fsGet fs k = none) : fsGet (fs.filter q) k = none := by
  induction fs with
  | nil => rfl
  | cons p rest ih =>
    simp only [fsGet] at h
    by_cases hp : p.1 = k
    · rw [if_pos hp] at h; exact absurd h (by simp)
    · rw [if_neg hp] at h
      by_cases hq : q p
      · rw [List.filter_cons_of_pos hq]
        simp only [fsGet, if_neg hp]
        exact ih h
      · rw [List.filter_cons_of_neg hq]
        exact ih h

theorem objHasKey_objDelete_self (v : JVal) (k : String) :
    objHasKey (objDelete v k) k = false := by
  cases v with
  | obj fs =>
    simp only [objDelete, objHasKey]
    rw [fsGet_filter_ne_self]
    rfl
  | undefinedV => rfl
  | nullv => rfl
  | bool b => rfl
  | num n => rfl
  | str s => rfl
  | arr l => rfl

theorem objHasKey_objDelete_of_not (v : JVal) (k m : String)
    (h : objHasKey v m = false) : objHasKey (objDelete v k) m = false := by
  cases v with
  | obj fs =>
    simp only [objDelete, objHasKey] at *
    have hnone : fsGet fs m = none := by
      rcases hg : fsGet fs m with _ | w
      · rfl
      · rw [hg] at h; exact absurd h (by simp)
    rw [fsGet_filter_none _ _ m hnone]
    rfl
  | undefinedV => exact h
  | nullv => exact h
  | bool b => exact h
  | num n => exact h
  | str s => exact h
  | arr l => exact h

theorem foldl_objDelete_of_not (l : List String) (v : JVal) (m : String)
    (h : objHasKey v m = false) : objHasKey (l.foldl objDelete v) m = false := by
  induction l generalizing v with
  | nil => exact h
  | cons k rest ih =>
    exact ih (objDelete v k) (objHasKey_objDelete_of_not v k m h)

theorem foldl_objDelete_mem (l : List String) (v : JVal) (m : String)
    (hm : m ∈ l) : objHasKey (l.foldl objDelete v) m = false := by
  induction l generalizing v with
  | nil => cases hm
  | cons k rest ih =>
    rcases List.mem_cons.mp hm with he | hmm
    · subst he
      exact foldl_objDelete_of_not rest (objDelete v m) m (objHasKey_objDelete_self v m)
    · exact ih (objDelete v k) hmm

theorem foldl_groups_of_not (groups : List (List String)) (v : JVal) (m : String)
    (h : objHasKey v m = false) :
    objHasKey (groups.foldl (fun acc g => (g.drop 1).foldl objDelete acc) v) m = false := by
  induction groups generalizing v with
  | nil => exact h
  | cons g rest ih =>
    exact ih _ (foldl_objDelete_of_not (g.drop 1) v m h)

theorem applyExclusive_absent (groups : List (List String)) (v : JVal) (g : List String)
    (m : String) (hg : g ∈ groups) (hm : m ∈ g.drop 1) :
    objHasKey (applyExclusive (some groups) v) m = false := by
  simp only [applyExclusive]
  induction groups generalizing v with
  | nil => cases hg
  | cons g0 rest ih =>
    rcases List.mem_cons.mp hg with he | hmm
    · subst he
      exact foldl_groups_of_not rest _ m (foldl_objDelete_mem (g.drop 1) v m hm)
    · exact ih _ hmm

/-!
Concrete schemas and contexts used by the claims.  The formatter of
fmtOkCtx is a total external formatter; fmtFailCtx always throws, to
exercise the error enrichment.
-/

def fmtOkCtx : Ctx := { fmt := fun _ => .ok "EX", rid := "RID" }

def fmtFailCtx : Ctx := { fmt := fun _ => .error "boom", rid := "RID" }

/-- The allProps key list of a build outcome (empty for null, undefined
or thrown outcomes). -/
def allPropsKeys (r : Except String (Option Defn)) : List String :=
  match r with
  | .ok (some d) => pmKeysO d.allProps
  | _ => []

/-- A number leaf with example 1. -/
def sNumLeaf : Schema := SchemaView.toSchema { type := some "number", exampleV := some (.num 1) }

/-- A string leaf with example x. -/
def sStrLeafX : Schema := SchemaView.toSchema { type := some "string", exampleV := some (.str "x") }

/-- The oneOf pair of the spec example: a string alternative first. -/
def sOneOfXN : Schema := SchemaView.toSchema { oneOf := some [sStrLeafX, sNumLeaf] }

/-- A oneOf whose single alternative extracts to a lodash-empty value
(the number 1), next to sibling properties that the empty-result
fallback of the extractor then re-derives the result from. -/
def sOneOfFallback : Schema := SchemaView.toSchema
  { oneOf := some [sNumLeaf],
    properties := some [("p", SchemaView.toSchema { exampleV := some (.num 5) })] }

/-- The array schema of the spec example. -/
def sArrayStr : Schema := SchemaView.toSchema
  { type := some "array",
    items := some (SchemaView.toSchema { type := some "string", exampleV := some (.str "a") }) }

/-- An array schema with no items subschema. -/
def sArrayNoItems : Schema := SchemaView.toSchema { type := some "array" }

/-- The exclusive-group schema of the spec example. -/
def sExclusive : Schema := SchemaView.toSchema
  { properties := some [("a", SchemaView.toSchema { exampleV := some (.num 1) }),
                        ("b", SchemaView.toSchema { exampleV := some (.num 2) })],
    exclusive := some [["a", "b"]] }

/-- CLAIM C9.  For every component with type array and no items field,
extract does not return a value: the array branch recurses into the
absent items subschema and trips the falsy-component guard, raising the
ReferenceError message No schema received to generate example data. -/
theorem claim9_array_no_items_throws (n : Nat) (c : Schema) (root : Option Schema)
    (hty : c.type = some "array") (hni : c.items = none) :
    extract (n + 2) (some c) root = .error refMsg := by
  simp [extract, hty, hni, exMapErr]

theorem claim9_witness :
    sArrayNoItems.type = some "array" ∧ sArrayNoItems.items = none ∧
      extract 7 (some sArrayNoItems) none = .error refMsg :=
  ⟨rfl, rfl, claim9_array_no_items_throws 5 sArrayNoItems none rfl rfl⟩

/-- CLAIM C4.  For every component with type array and an items
subschema, extract returns a one-element sequence whose sole element is
the extraction of items (with the id-rebound scope); on the spec
example the result is the one-element sequence holding the string a,
not a bare string and not an empty sequence. -/
theorem claim4_array_single_element (n : Nat) (c it : Schema) (root : Option Schema)
    (hty : c.type = some "array") (hit : c.items = some it) :
    extract (n + 1) (some c) root
      = (extract n (some it) (if strTruthy c.idTag then some c else root)).map
          (fun v => JVal.arr [v])
    ∧ extract 10 (some sArrayStr) none = .ok (.arr [.str "a"]) := by
  constructor
  · simp [extract, hty, hit]
  · rfl

theorem claim4_witness :
    sArrayStr.type = some "array"
    ∧ sArrayStr.items = some (SchemaView.toSchema { type := some "string", exampleV := some (.str "a") })
    ∧ extract 6 (some sArrayStr) none
        = (extract 5 (some (SchemaView.toSchema { type := some "string", exampleV := some (.str "a") }))
            (if strTruthy sArrayStr.idTag then some sArrayStr else none)).map (fun v => JVal.arr [v]) :=
  ⟨rfl, rfl, (claim4_array_single_element 5 sArrayStr _ none rfl rfl).1⟩

/-- Inversion for a successful Except.map. -/
theorem exMap_ok_inv {α β : Type} {E : Except String α} {f : α → β} {v : β}
    (h : E.map f = .ok v) : ∃ w, E = .ok w ∧ v = f w := by
  rcases E with e | w
  · exact absurd h (by simp [exMapErr])
  · exact ⟨w, rfl, (Except.ok.inj (by rw [exMapOk] at h; exact h)).symm⟩

/-- CLAIM C5.  For every component carrying an exclusive field, after
the merging phases of extract every group member except the first is
absent from the returned mapping; on the spec example with both a and b
present the result keeps a and drops b. -/
theorem claim5_exclusive_prunes :
    (∀ (n : Nat) (c : Schema) (root : Option Schema) (groups : List (List String)) (v : JVal),
      c.exclusive = some groups →
      extract n (some c) root = .ok v →
      ∀ g ∈ groups, ∀ m ∈ g.drop 1, objHasKey v m = false)
    ∧ extract 10 (some sExclusive) none = .ok (.obj [("a", .num 1)]) := by
  constructor
  · intro n c root groups v hexc hok g hg m hm
    cases n with
    | zero => exact absurd hok (by simp [extract])
    | succ n2 =>
      simp only [extract] at hok
      split at hok
      · rcases hin : extract n2 c.items (if strTruthy c.idTag then some c else root) with e | w <;>
          rw [hin] at hok
        · exact absurd hok (by simp [exMapErr])
        · rw [exMapOk] at hok
          cases Except.ok.inj hok
          rfl
      · obtain ⟨r3, _, hr3⟩ := exMap_ok_inv hok
        rw [hr3, hexc]
        exact applyExclusive_absent groups r3 g m hg hm
  · rfl

theorem claim5_witness :
    sExclusive.exclusive = some [["a", "b"]]
    ∧ extract 10 (some sExclusive) none = .ok (.obj [("a", .num 1)])
    ∧ objHasKey (.obj [("a", .num 1)]) "b" = false :=
  ⟨rfl, rfl,
    claim5_exclusive_prunes.1 10 sExclusive none [["a", "b"]] (.obj [("a", .num 1)]) rfl rfl
      ["a", "b"] (by simp) "b" (by simp)⟩

/-- CLAIM C10.  With no headers and no data the flag list is empty, yet
generate still appends the line-continuation separator after the first
curl line before joining it, so the result is exactly the first line
followed by a dangling backslash-newline and nothing else. -/
theorem claim10_dangling_continuation (fmt : JVal → Except String String)
    (uri : String) (method : Option String) :
    generate fmt uri method none none
      = .ok (joinSep " "
          ["curl",
           buildFlag "X"
             (strUp (match method with | none => "GET" | some s => if s.isEmpty then "GET" else s))
             0 (some ""),
           "\"" ++ uri ++ "\""] ++ curlNewLine)
    ∧ generate fmt "http://x/y" (some "POST") none none
      = .ok "curl -X POST \"http://x/y\" \\\n" := by
  constructor
  · have h : generate fmt uri method none none
        = .ok ((joinSep " "
            ["curl",
             buildFlag "X"
               (strUp (match method with | none => "GET" | some s => if s.isEmpty then "GET" else s))
               0 (some ""),
             "\"" ++ uri ++ "\""] ++ curlNewLine) ++ "") := rfl
    rw [h, String.append_empty]
  · rfl

/-- CLAIM C7 counterexample: at the spec input, generate renders the
method without quotes and spells the data flag with two dashes, so the
output differs from the string the claim demands. -/
theorem claim7_counterexample :
    generate (fun _ => .ok "FD") "http://x/y" (some "POST")
        (some [("Content-Type", "application/json")]) (some (.obj [("a", .num 1)]))
      = .ok "curl -X POST \"http://x/y\" \\\n     -H \"Content-Type: application/json\" \\\n     --data \x27FD\x27"
    ∧ ("curl -X POST \"http://x/y\" \\\n     -H \"Content-Type: application/json\" \\\n     --data \x27FD\x27"
        : String)
      ≠ "curl -X \"POST\" \"http://x/y\" \\\n     -H \"Content-Type: application/json\" \\\n     -data \x27FD\x27" := by
  refine ⟨rfl, ?_⟩
  decide

/-- CLAIM C7 as amended.  generate on the spec input returns three
lines joined by the backslash-newline separator: the first line
curl -X POST with the uri double-quoted and the method unquoted, a
5-space-indented header flag line, and a 5-space-indented data flag
line spelled with two dashes (buildFlag prefixes a dash to the flag
name minus-data) whose value is the formatter output in single
quotes. -/
theorem claim7_amended (fmt : JVal → Except String String) (d : JVal) (fd : String)
    (hd : truthy d = true) (hfd : fmt d = .ok fd) :
    generate fmt "http://x/y" (some "POST")
        (some [("Content-Type", "application/json")]) (some d)
      = .ok ("curl -X POST \"http://x/y\" \\\n     -H \"Content-Type: application/json\" \\\n     --data \x27"
          ++ fd ++ "\x27") := by
  obtain ⟨l⟩ := fd
  simp only [generate, formatData, hd, hfd, Bool.true_and]
  rfl

theorem claim7_witness :
    truthy (JVal.obj [("a", .num 1)]) = true
    ∧ (fun (_ : JVal) => (Except.ok "FD" : Except String String)) (JVal.obj [("a", .num 1)]) = .ok "FD"
    ∧ generate (fun _ => .ok "FD") "http://x/y" (some "POST")
        (some [("Content-Type", "application/json")]) (some (.obj [("a", .num 1)]))
      = .ok ("curl -X POST \"http://x/y\" \\\n     -H \"Content-Type: application/json\" \\\n     --data \x27"
          ++ "FD" ++ "\x27") :=
  ⟨rfl, rfl,
    claim7_amended (fun _ => .ok "FD") (.obj [("a", .num 1)]) "FD" rfl rfl⟩

/-- CLAIM C6.  When example extraction or formatting fails with error e
during finalization of a build whose earlier phases succeeded, build
raises (returns no definition): the error message embeds both the
JSON-serialized offending schema and the original message. -/
theorem claim6_error_enrichment (n : Nat) (ctx : Ctx) (s sMut : Schema) (d : Defn) (e : String)
    (hnd : ¬(s.noDisplay = some true))
    (hcore : buildCore n ctx s = .ok (sMut, d))
    (hfail : (do
        let v ← extract n (some sMut) none
        ctx.fmt v : Except String String) = .error e) :
    build (n + 1) ctx s = .error (enrichMsg n sMut e)
    ∧ enrichMsg n sMut e = "Error preparing data for object: " ++ stringifySchema n sMut ++ " " ++ e
    ∧ (∃ l r, enrichMsg n sMut e = l ++ stringifySchema n sMut ++ r)
    ∧ (∃ l, enrichMsg n sMut e = l ++ e) := by
  refine ⟨?_, rfl, ?_, ?_⟩
  · simp only [build, if_neg hnd, hcore, hfail]
  · exact ⟨"Error preparing data for object: ", " " ++ e,
      String.append_assoc _ " " e⟩
  · exact ⟨"Error preparing data for object: " ++ stringifySchema n sMut ++ " ", rfl⟩

/-- The empty schema used by the C6 witness. -/
def sEmptyW : Schema := SchemaView.toSchema {}

theorem claim6_witness :
    ¬(sEmptyW.noDisplay = some true)
    ∧ buildCore 5 fmtFailCtx sEmptyW
        = .ok (sEmptyW,
            { allProps := some [], requiredProps := none, optionalProps := none,
              objects := [], exampleS := "", id := "RID",
              title := none, description := none, enumVals := none,
              origJ := some (schemaToJVal 5 sEmptyW) })
    ∧ build 6 fmtFailCtx sEmptyW = .error (enrichMsg 5 sEmptyW "boom") := by
  refine ⟨by simp [sEmptyW, SchemaView.toSchema, Schema.noDisplay], rfl, ?_⟩
  exact (claim6_error_enrichment 5 fmtFailCtx sEmptyW sEmptyW _ "boom"
    (by simp [sEmptyW, SchemaView.toSchema, Schema.noDisplay]) rfl rfl).1

theorem fsGet_isSome_of_mem (fs : PMap) (p : String × JVal) (hp : p ∈ fs) :
    (fsGet fs p.1).isSome := by
  induction fs with
  | nil => cases hp
  | cons q rest ih =>
    simp only [fsGet]
    by_cases hq : q.1 = p.1
    · rw [if_pos hq]; rfl
    · rw [if_neg hq]
      rcases List.mem_cons.mp hp with he | hm
      · subst he; exact absurd rfl hq
      · exact ih hm

theorem fsGet_isSome_mem (fs : PMap) (k : String) (h : (fsGet fs k).isSome) :
    k ∈ fs.map Prod.fst := by
  induction fs with
  | nil => exact absurd h (by simp [fsGet])
  | cons q rest ih =>
    simp only [fsGet] at h
    by_cases hq : q.1 = k
    · exact List.mem_map.mpr ⟨q, List.mem_cons_self q rest, hq⟩
    · rw [if_neg hq] at h
      exact List.mem_cons.mpr (Or.inr (ih h))

theorem sEntryUnique (st : List (String × Schema)) (h : (st.map Prod.fst).Nodup)
    (p q : String × Schema) (hp : p ∈ st) (hq : q ∈ st) (he : p.1 = q.1) : p = q := by
  have h1 := sGet_eq_of_mem st h p hp
  have h2 := sGet_eq_of_mem st h q hq
  rw [he, h2] at h1
  exact Prod.ext he (Option.some.inj h1).symm

/-- CLAIM C8.  Visibility filtering mutates the caller-owned input:
after defineProperties, the caller-owned properties mapping (returned
as the post-call state by the embedding) has lost exactly the keys
whose values carry noDisplay, while every other entry remains present
and unchanged. -/
theorem claim8_mutates_input (n : Nat) (ctx : Ctx)
    (props props2 : List (String × Schema)) (defs : PMap)
    (hnd : (props.map Prod.fst).Nodup)
    (h : defineProperties n ctx (some props) = .ok (props2, defs)) :
    props2 = props.filter (fun p => ¬(p.2.noDisplay = some true))
    ∧ (∀ p ∈ props, p.2.noDisplay = some true → p.1 ∉ props2.map Prod.fst)
    ∧ (∀ p ∈ props, ¬(p.2.noDisplay = some true) → p ∈ props2) := by
  cases n with
  | zero => exact absurd h (by simp [defineProperties])
  | succ m =>
    simp only [defineProperties, Option.getD] at h
    rcases hdl : definePropsList m ctx (noDisplayLoop props) with e | dl <;> rw [hdl] at h
    · exact absurd h (by simp [exBindErr])
    · rw [exBindOk, exPure] at h
      have hh := Except.ok.inj h
      rw [Prod.ext_iff] at hh
      have hp2 : props2 = noDisplayLoop props := hh.1.symm
      rw [hp2, noDisplayLoop_eq_filter props hnd]
      refine ⟨rfl, ?_, ?_⟩
      · intro p hp hd hmem
        obtain ⟨q, hqmem, hqk⟩ := List.mem_map.mp hmem
        have hqp : q ∈ props ∧ ¬(q.2.noDisplay = some true) := by
          have := List.mem_filter.mp hqmem
          exact ⟨this.1, by simpa using this.2⟩
        have : q = p := sEntryUnique props hnd q p hqp.1 hp hqk
        rw [this] at hqp
        exact hqp.2 hd
      · intro p hp hd
        exact List.mem_filter.mpr ⟨hp, by simpa using hd⟩

/-- A noDisplay property entry for the C8 witness. -/
def sNoDispW : Schema := SchemaView.toSchema { noDisplay := some true }

/-- A visible property entry for the C8 witness. -/
def sPlainW : Schema := SchemaView.toSchema { exampleV := some (.num 7) }

def propsW : List (String × Schema) := [("a", sNoDispW), ("b", sPlainW)]

/-- The outcome of the C8 witness call. -/
def dpResW : List (String × Schema) × PMap :=
  match defineProperties 20 fmtOkCtx (some propsW) with
  | .ok pr => pr
  | _ => ([], [])

theorem claim8_witness :
    (propsW.map Prod.fst).Nodup
    ∧ defineProperties 20 fmtOkCtx (some propsW) = .ok (dpResW.1, dpResW.2)
    ∧ dpResW.1 = propsW.filter (fun p => ¬(p.2.noDisplay = some true))
    ∧ ("a" : String) ∉ dpResW.1.map Prod.fst
    ∧ ("b", sPlainW) ∈ dpResW.1 := by
  have hnd : (propsW.map Prod.fst).Nodup := by decide
  have heq : defineProperties 20 fmtOkCtx (some propsW) = .ok (dpResW.1, dpResW.2) := rfl
  have h := claim8_mutates_input 20 fmtOkCtx propsW dpResW.1 dpResW.2 hnd heq
  refine ⟨hnd, heq, h.1, ?_, ?_⟩
  · exact h.2.1 ("a", sNoDispW) (by simp [propsW]) rfl
  · exact h.2.2 ("b", sPlainW) (by simp [propsW]) (by decide)

/-- The open first allOf member of the spec example. -/
def sAllOfOpen : Schema := SchemaView.toSchema
  { properties := some [("a", SchemaView.toSchema { exampleV := some (.num 1) })] }

/-- The closed second allOf member of the spec example. -/
def sAllOfClosed : Schema := SchemaView.toSchema
  { addProps := some (.inl false),
    properties := some [("c", SchemaView.toSchema { exampleV := some (.num 3) })] }

/-- The allOf pair of the spec example: an open member followed by a
closed member. -/
def sAllOfPair : Schema := SchemaView.toSchema { allOf := some [sAllOfOpen, sAllOfClosed] }

/-- CLAIM C2.  In the allOf fold of build, a member with
additionalProperties === false replaces the accumulator: the step
result ignores the accumulated self entirely (first conjunct), equals
the member build after its own noDisplay pass with the flag set
(second conjunct); once the flag is set a later non-closed member is
never merged, only the noDisplay deletions apply (third conjunct); and
on the spec example of an open member followed by a closed member the
final allProps holds exactly the key c (fourth conjunct). -/
theorem claim2_closed_replaces_no_later_merge :
    (∀ (n : Nat) (ctx : Ctx) (st st2 : BState) (m : Schema),
        isClosedAP m.addProps = true → st.required = st2.required →
        allOfStep n ctx st m = allOfStep n ctx st2 m)
    ∧ (∀ (n : Nat) (ctx : Ctx) (st : BState) (m : Schema) (b s2 : Option Defn),
        isClosedAP m.addProps = true →
        build n ctx m = .ok b →
        noDisplayPass (m.properties.getD []) b = .ok s2 →
        allOfStep (n + 1) ctx st m
          = .ok { self := s2, required := st.required ++ (m.required.getD []), flag := true })
    ∧ (∀ (n : Nat) (ctx : Ctx) (self s2 : Option Defn) (req : List String) (m : Schema),
        isClosedAP m.addProps = false →
        noDisplayPass (m.properties.getD []) self = .ok s2 →
        allOfStep (n + 1) ctx { self := self, required := req, flag := true } m
          = .ok { self := s2, required := req ++ (m.required.getD []), flag := true })
    ∧ allPropsKeys (build 32 fmtOkCtx sAllOfPair) = ["c"] := by
  refine ⟨?_, ?_, ?_, ?_⟩
  · intro n ctx st st2 m hc hr
    cases n with
    | zero => rfl
    | succ k => simp only [allOfStep, hc, hr, if_true]
  · intro n ctx st m b s2 hc hb hnp
    simp only [allOfStep, hc, if_true]
    rw [hb, exBindOk, hnp, exBindOk, exPure]
  · intro n ctx self s2 req m hc hnp
    have hcn : ¬(isClosedAP m.addProps = true) := by simp [hc]
    simp only [allOfStep, if_neg hcn]
    rw [hnp, exBindOk]
    rfl
  · rfl

/-- States for the C2 witness: equal accumulated required lists but
different accumulators. -/
def stA : BState := { self := some (initialDefn "X"), required := ["r"], flag := false }

def stB : BState := { self := none, required := ["r"], flag := false }

/-- The build of the closed member at fuel 20, for the C2 witness. -/
def bW : Option Defn :=
  match build 20 fmtOkCtx sAllOfClosed with
  | .ok b => b
  | _ => none

/-- A flagged state for the no-merge conjunct of the C2 witness. -/
def stC : BState := { self := some (initialDefn "X"), required := ["r"], flag := true }

theorem claim2_witness :
    allOfStep 5 fmtOkCtx stA sAllOfClosed = allOfStep 5 fmtOkCtx stB sAllOfClosed
    ∧ allOfStep 21 fmtOkCtx stA sAllOfClosed
        = .ok { self := bW, required := ["r"], flag := true }
    ∧ allOfStep 21 fmtOkCtx stC sAllOfOpen
        = .ok { self := some (initialDefn "X"), required := ["r"], flag := true } :=
  ⟨claim2_closed_replaces_no_later_merge.1 5 fmtOkCtx stA stB sAllOfClosed rfl rfl,
   claim2_closed_replaces_no_later_merge.2.1 20 fmtOkCtx stA sAllOfClosed bW bW rfl rfl rfl,
   claim2_closed_replaces_no_later_merge.2.2.1 20 fmtOkCtx
     (some (initialDefn "X")) (some (initialDefn "X")) ["r"] sAllOfOpen rfl rfl⟩

/-- CLAIM C3 as amended.  For a component carrying oneOf (or, lacking
oneOf, anyOf), with no allOf and type not array, extract returns the
extraction of the first listed alternative (against the id-rebound
scope) provided that extraction is non-empty in the lodash sense, the
component has no exclusive groups, and it does not opt into the
additionalProperties merge; the choice is deterministic, as on the
spec example where the first alternative always wins. -/
theorem claim3_first_alternative :
    (∀ (n : Nat) (c f : Schema) (r : List Schema) (root : Option Schema) (v : JVal),
        (c.oneOf = some (f :: r) ∨ (c.oneOf = none ∧ c.anyOf = some (f :: r))) →
        c.allOf = none →
        ¬(c.type = some "array") →
        extract n (some f) (if strTruthy c.idTag then some c else root) = .ok v →
        isEmptyJV v = false →
        c.exclusive = none →
        ¬(c.addProps.isSome = true ∧ c.genIncludeAP = some true) →
        extract (n + 1) (some c) root = .ok v)
    ∧ extract 10 (some sOneOfXN) none = .ok (.str "x") := by
  constructor
  · intro n c f r root v halt hao hty hfe hne hexc hap
    have hapb : (c.addProps.isSome && decide (c.genIncludeAP = some true)) = false := by
      rcases h1 : c.addProps.isSome
      · rfl
      · rcases h2 : decide (c.genIncludeAP = some true)
        · rfl
        · exact absurd ⟨h1, of_decide_eq_true h2⟩ hap
    have hao2 : c.allOf.isSome = false := by rw [hao]; rfl
    rcases halt with h1 | ⟨h0, h2⟩
    · have ho : c.oneOf.isSome = true := by rw [h1]; rfl
      simp only [extract, if_neg hty, hao2, ho, Bool.false_eq_true, if_false, if_true,
        h1, Option.getD, List.head?, hfe, exBindOk, hapb, exPure, hne, exMapOk, hexc,
        applyExclusive, Option.isSome_some]
    · have ho0 : c.oneOf.isSome = false := by rw [h0]; rfl
      have ha : c.anyOf.isSome = true := by rw [h2]; rfl
      simp only [extract, if_neg hty, hao2, ho0, ha, Bool.false_eq_true, if_false, if_true,
        h2, Option.getD, List.head?, hfe, exBindOk, hapb, exPure, hne, exMapOk, hexc,
        applyExclusive, Option.isSome_some]
  · rfl

/-- CLAIM C3 counterexample: a component whose single oneOf alternative
extracts to the number 1, a lodash-empty value, next to sibling
properties.  The extraction of the first alternative is the empty
mapping after its own fallback, while extract on the component
re-derives the result from the sibling properties, so the two
disagree. -/
theorem claim3_counterexample :
    sOneOfFallback.oneOf = some [sNumLeaf]
    ∧ sOneOfFallback.allOf = none
    ∧ ¬(sOneOfFallback.type = some "array")
    ∧ extract 20 (some sNumLeaf) none = .ok (.obj [])
    ∧ extract 20 (some sOneOfFallback) none = .ok (.obj [("p", .num 5)])
    ∧ (JVal.obj [("p", .num 5)]) ≠ .obj [] := by
  refine ⟨rfl, rfl, by decide, rfl, rfl, by simp⟩

theorem claim3_witness :
    sOneOfXN.oneOf = some [sStrLeafX, sNumLeaf]
    ∧ extract 9 (some sStrLeafX) (if strTruthy sOneOfXN.idTag then some sOneOfXN else none)
        = .ok (.str "x")
    ∧ isEmptyJV (.str "x") = false
    ∧ extract 10 (some sOneOfXN) none = .ok (.str "x") :=
  ⟨rfl, rfl, rfl,
    claim3_first_alternative.1 9 sOneOfXN sStrLeafX [sNumLeaf] none (.str "x")
      (Or.inl rfl) rfl (by decide) rfl rfl rfl (by decide)⟩

theorem defineProperties_spec (n : Nat) (ctx : Ctx)
    (props P2 : List (String × Schema)) (defs : PMap)
    (h : defineProperties n ctx (some props) = .ok (P2, defs)) :
    P2 = noDisplayLoop props ∧ defs.map Prod.fst = (noDisplayLoop props).map Prod.fst := by
  cases n with
  | zero => exact absurd h (by simp [defineProperties])
  | succ m =>
    simp only [defineProperties, Option.getD] at h
    rcases hdl : definePropsList m ctx (noDisplayLoop props) with e | dl <;> rw [hdl] at h
    · exact absurd h (by simp [exBindErr])
    · rw [exBindOk, exPure] at h
      have hh := Except.ok.inj h
      rw [Prod.ext_iff] at hh
      have h1 : noDisplayLoop props = P2 := hh.1
      have h2 : dl = defs := hh.2
      refine ⟨h1.symm, ?_⟩
      rw [← h2]
      exact definePropsList_keys (noDisplayLoop props) m ctx dl hdl

/-- buildCore on a schema with no composition keywords, no items and
no schema-valued additionalProperties: the allOf, oneOf, anyOf, items
and catch-all phases are skipped and the result is the resolved own
properties with the required partition. -/
theorem buildCore_noComp (n2 : Nat) (ctx : Ctx) (s : Schema)
    (P : List (String × Schema))
    (hP : s.properties = some P)
    (hao : s.allOf = none) (hoo : s.oneOf = none) (han : s.anyOf = none)
    (hit : s.items = none)
    (hap : isSchemaAP s.addProps = false) :
    buildCore (n2 + 1) ctx s
      = match defineProperties n2 ctx (some P) with
        | .error e => .error e
        | .ok (P2, defs) =>
          .ok (s.setProperties (some P2),
            { allProps := some (extendMap [] defs),
              requiredProps :=
                (if (pickGo (extendMap [] defs) [] (s.required.getD [])).isEmpty then none
                 else some (pickGo (extendMap [] defs) [] (s.required.getD []))),
              optionalProps :=
                (if ((extendMap [] defs).filter (fun p => p.1 ∉ s.required.getD [])).isEmpty then none
                 else some ((extendMap [] defs).filter (fun p => p.1 ∉ s.required.getD []))),
              objects := [], exampleS := "", id := ctx.rid,
              title := s.title, description := s.description, enumVals := s.enumVals,
              origJ := some (schemaToJVal n2 (s.setProperties (some P2))) }) := by
  simp only [buildCore, hP, hao, hoo, han, hit, hap, Option.isSome_none, Bool.or_self,
    Bool.false_eq_true, if_false, exBindOk, exPure]
  rcases hdp : defineProperties n2 ctx (some P) with e | pd
  · simp [exBindErr]
  · obtain ⟨P2, defs⟩ := pd
    simp only [exBindOk, exPure, initialDefn, ite_self, extendP, pickP, omitP]

theorem listIsEmpty_eq_nil {α : Type} (l : List α) (h : l.isEmpty = true) : l = [] := by
  cases l with
  | nil => rfl
  | cons x xs => cases h

theorem pmGetO_trim (A : PMap) (k : String) :
    pmGetO (if A.isEmpty then none else some A) k = fsGet A k := by
  cases A with
  | nil => rfl
  | cons p rest => rfl

/-- CLAIM C1 as amended.  For a schema whose properties form a mapping
P with nodup names, whose required list is contained in the names of P,
which uses no composition keywords, has no items subschema and no
schema-valued additionalProperties: whenever build returns a
definition, allProps holds exactly the keys of P minus the noDisplay
entries; requiredProps is the restriction of allProps to the required
names and optionalProps the restriction to the rest, each null exactly
when its restriction is empty; the two restrictions are disjoint and
their key sets union to the keys of allProps. -/
theorem claim1_partition (n : Nat) (ctx : Ctx) (s : Schema)
    (P : List (String × Schema)) (d : Defn)
    (hP : s.properties = some P)
    (hkeys : (P.map Prod.fst).Nodup)
    (hR : ∀ k ∈ s.required.getD [], k ∈ P.map Prod.fst)
    (hao : s.allOf = none) (hoo : s.oneOf = none) (han : s.anyOf = none)
    (hit : s.items = none)
    (hap : isSchemaAP s.addProps = false)
    (hb : build n ctx s = .ok (some d)) :
    pmKeysO d.allProps = (P.filter (fun p => ¬(p.2.noDisplay = some true))).map Prod.fst
    ∧ (∀ k, pmGetO d.requiredProps k =
        if k ∈ s.required.getD [] then pmGetO d.allProps k else none)
    ∧ (d.requiredProps = none ↔ ∀ k ∈ s.required.getD [], pmGetO d.allProps k = none)
    ∧ (∀ k, pmGetO d.optionalProps k =
        if k ∈ s.required.getD [] then none else pmGetO d.allProps k)
    ∧ (d.optionalProps = none ↔ ∀ k, pmGetO d.allProps k ≠ none → k ∈ s.required.getD [])
    ∧ (∀ k, ¬(pmGetO d.requiredProps k ≠ none ∧ pmGetO d.optionalProps k ≠ none))
    ∧ (d.requiredProps ≠ none → d.optionalProps ≠ none →
        ∀ k, pmGetO d.allProps k ≠ none ↔
          (pmGetO d.requiredProps k ≠ none ∨ pmGetO d.optionalProps k ≠ none)) := by
  rcases n with _ | n1
  · exact absurd hb (by simp [build])
  · by_cases hno : s.noDisplay = some true
    · simp only [build, if_pos hno] at hb
      exact absurd hb (by simp [exPure])
    · simp only [build, if_neg hno] at hb
      rcases hc : buildCore n1 ctx s with e | pr
      · rw [hc] at hb
        simp at hb
      obtain ⟨sMut, d0⟩ := pr
      rw [hc] at hb
      dsimp only at hb
      rcases hex : (do
          let v ← extract n1 (some sMut) none
          ctx.fmt v : Except String String) with e | ex
      · rw [hex] at hb
        simp at hb
      rw [hex] at hb
      dsimp only at hb
      have hd := Option.some.inj (Except.ok.inj hb)
      rcases n1 with _ | n2
      · exact absurd hc (by simp [buildCore])
      · rw [buildCore_noComp n2 ctx s P hP hao hoo han hit hap] at hc
        rcases hdp : defineProperties n2 ctx (some P) with e2 | pd
        · rw [hdp] at hc
          simp at hc
        obtain ⟨P2, defs⟩ := pd
        rw [hdp] at hc
        dsimp only at hc
        obtain ⟨hP2, hdk⟩ := defineProperties_spec n2 ctx P P2 defs hdp
        have hfk : defs.map Prod.fst
            = (P.filter (fun p => ¬(p.2.noDisplay = some true))).map Prod.fst := by
          rw [hdk, noDisplayLoop_eq_filter P hkeys]
        have hnodup : (defs.map Prod.fst).Nodup := by
          rw [hfk]
          exact nodupKeys_filter P _ hkeys
        have hEM : extendMap [] defs = defs := extendMap_nil defs hnodup
        rw [hEM] at hc
        have hh := Except.ok.inj hc
        rw [Prod.ext_iff] at hh
        have hd0 : (
            { allProps := some defs,
              requiredProps :=
                (if (pickGo defs [] (s.required.getD [])).isEmpty then none
                 else some (pickGo defs [] (s.required.getD []))),
              optionalProps :=
                (if (defs.filter (fun p => p.1 ∉ s.required.getD [])).isEmpty then none
                 else some (defs.filter (fun p => p.1 ∉ s.required.getD []))),
              objects := [], exampleS := "", id := ctx.rid,
              title := s.title, description := s.description, enumVals := s.enumVals,
              origJ := some (schemaToJVal n2 (s.setProperties (some P2))) } : Defn) = d0 := hh.2
        subst hd0
        subst hd
        -- the three partition maps in explicit form
        have hAllP : ∀ k, pmGetO
            (if defs.isEmpty then none else some defs) k = fsGet defs k :=
          fun k => pmGetO_trim defs k
        have hreq : ∀ k,
            pmGetO (if (pickGo defs [] (s.required.getD [])).isEmpty then none
              else some (pickGo defs [] (s.required.getD []))) k
              = if k ∈ s.required.getD [] then fsGet defs k else none := by
          intro k
          rcases hrpE : (pickGo defs [] (s.required.getD [])).isEmpty with _ | _
          · rw [if_neg Bool.false_ne_true]
            have hstep : pmGetO (some (pickGo defs [] (s.required.getD []))) k
                = fsGet (pickGo defs [] (s.required.getD [])) k := rfl
            rw [hstep, fsGet_pickGo defs (s.required.getD []) [] k]
            by_cases hkR : k ∈ s.required.getD []
            · rcases hfd : fsGet defs k with _ | w
              · rw [if_neg (fun h => Bool.noConfusion h.2), if_pos hkR]
                rfl
              · rw [if_pos ⟨hkR, rfl⟩, if_pos hkR]
            · have hnc : ¬(k ∈ s.required.getD [] ∧ (fsGet defs k).isSome = true) :=
                fun h => hkR h.1
              rw [if_neg hnc, if_neg hkR]
              rfl
          · rw [if_pos rfl]
            have hnil := listIsEmpty_eq_nil _ hrpE
            have hallnone := (pickGo_nil_iff defs (s.required.getD [])).mp hnil
            by_cases hkR : k ∈ s.required.getD []
            · rw [if_pos hkR, hallnone k hkR]
              rfl
            · rw [if_neg hkR]
              rfl
        have hopt : ∀ k,
            pmGetO (if (defs.filter (fun p => p.1 ∉ s.required.getD [])).isEmpty then none
              else some (defs.filter (fun p => p.1 ∉ s.required.getD []))) k
              = if k ∈ s.required.getD [] then none else fsGet defs k := by
          intro k
          rcases hopE : (defs.filter (fun p => p.1 ∉ s.required.getD [])).isEmpty with _ | _
          · rw [hopE, if_neg Bool.false_ne_true]
            have hstep : pmGetO (some (defs.filter (fun p => p.1 ∉ s.required.getD []))) k
                = fsGet (defs.filter (fun p => p.1 ∉ s.required.getD [])) k := rfl
            rw [hstep]
            exact fsGet_omitFilter defs (s.required.getD []) k
          · rw [hopE, if_pos rfl]
            have hnil := listIsEmpty_eq_nil _ hopE
            have hmemR : ∀ p ∈ defs, p.1 ∈ s.required.getD [] := by
              intro p hp
              have h2 := List.filter_eq_nil_iff.mp hnil p hp
              by_contra hno2
              exact h2 (by simpa using hno2)
            by_cases hkR : k ∈ s.required.getD []
            · rw [if_pos hkR]
              rfl
            · rw [if_neg hkR]
              rcases hfd : fsGet defs k with _ | w
              · rfl
              · exfalso
                have hksome : (fsGet defs k).isSome := by rw [hfd]; rfl
                obtain ⟨p, hpmem, hpk⟩ := List.mem_map.mp (fsGet_isSome_mem defs k hksome)
                exact hkR (hpk ▸ hmemR p hpmem)
        have hreqNone :
            (if (pickGo defs [] (s.required.getD [])).isEmpty then none
              else some (pickGo defs [] (s.required.getD []))) = (none : Option PMap)
            ↔ ∀ k ∈ s.required.getD [], fsGet defs k = none := by
          rcases hrpE : (pickGo defs [] (s.required.getD [])).isEmpty with _ | _
          · refine iff_of_false ?_ ?_
            · rw [if_neg Bool.false_ne_true]
              simp
            · intro hRHS
              rw [(pickGo_nil_iff defs (s.required.getD [])).mpr hRHS] at hrpE
              simp at hrpE
          · refine iff_of_true ?_ ?_
            · rw [if_pos rfl]
            · exact (pickGo_nil_iff defs (s.required.getD [])).mp (listIsEmpty_eq_nil _ hrpE)
        have hoptNone :
            (if (defs.filter (fun p => p.1 ∉ s.required.getD [])).isEmpty then none
              else some (defs.filter (fun p => p.1 ∉ s.required.getD []))) = (none : Option PMap)
            ↔ ∀ k, fsGet defs k ≠ none → k ∈ s.required.getD [] := by
          rcases hopE : (defs.filter (fun p => p.1 ∉ s.required.getD [])).isEmpty with _ | _
          · refine iff_of_false ?_ ?_
            · rw [hopE, if_neg Bool.false_ne_true]
              simp
            · intro hRHS
              have hnil : defs.filter (fun p => p.1 ∉ s.required.getD []) = [] := by
                rw [List.filter_eq_nil_iff]
                intro p hp
                have hsome : (fsGet defs p.1).isSome := fsGet_isSome_of_mem defs p hp
                have hne : fsGet defs p.1 ≠ none := by
                  rcases hg : fsGet defs p.1 with _ | w
                  · rw [hg] at hsome; cases hsome
                  · simp
                have hin := hRHS p.1 hne
                simp [hin]
              rw [hnil] at hopE
              simp at hopE
          · refine iff_of_true ?_ ?_
            · rw [hopE, if_pos rfl]
            · intro k hk
              have hksome : (fsGet defs k).isSome := by
                rcases hg : fsGet defs k with _ | w
                · exact absurd hg hk
                · rfl
              obtain ⟨p, hpmem, hpk⟩ := List.mem_map.mp (fsGet_isSome_mem defs k hksome)
              have h2 := List.filter_eq_nil_iff.mp (listIsEmpty_eq_nil _ hopE) p hpmem
              rw [← hpk]
              by_contra hno2
              exact h2 (by simpa using hno2)
        refine ⟨?_, ?_, ?_, ?_, ?_, ?_, ?_⟩
        · rw [← hfk]
          cases defs with
          | nil => rfl
          | cons p rest => rfl
        · intro k
          rw [hreq k, hAllP k]
        · rw [hreqNone]
          constructor
          · intro h k hk
            rw [hAllP k]
            exact h k hk
          · intro h k hk
            rw [← hAllP k]
            exact h k hk
        · intro k
          rw [hopt k, hAllP k]
        · rw [hoptNone]
          constructor
          · intro h k hk
            exact h k (by rw [← hAllP k]; exact hk)
          · intro h k hk
            exact h k (by rw [hAllP k]; exact hk)
        · intro k hk
          obtain ⟨h1, h2⟩ := hk
          rw [hreq k] at h1
          rw [hopt k] at h2
          by_cases hkR : k ∈ s.required.getD []
          · rw [if_pos hkR] at h2
            exact h2 rfl
          · rw [if_neg hkR] at h1
            exact h1 rfl
        · intro _ _ k
          rw [hAllP k, hreq k, hopt k]
          by_cases hkR : k ∈ s.required.getD []
          · simp [hkR]
          · simp [hkR]

/-- The items subschema of the C1 counterexample: it carries its own
properties map with the single name b. -/
def sItemsInner : Schema := SchemaView.toSchema
  { properties := some [("b", sNumLeaf)] }

/-- The C1 counterexample schema: a properties map with the single
name a, no composition keywords and no required list, but an items
subschema whose own properties define b. -/
def sItemsLeak : Schema := SchemaView.toSchema
  { properties := some [("a", sNumLeaf)],
    items := some sItemsInner }

/-- CLAIM C1 counterexample.  sItemsLeak has properties named a only,
none of them flagged noDisplay, no composition keywords and an empty
required list, yet build returns a definition whose allProps holds the
keys a and b: object-definition.js lines 113 to 122 merge the items
subschema properties into allProps, so allProps is not exactly the
keys of the properties map minus the noDisplay entries. -/
theorem claim1_counterexample :
    sItemsLeak.properties = some [("a", sNumLeaf)]
    ∧ sItemsLeak.allOf = none
    ∧ sItemsLeak.oneOf = none
    ∧ sItemsLeak.anyOf = none
    ∧ sItemsLeak.required = none
    ∧ (([("a", sNumLeaf)].filter
        (fun p => ¬((Prod.snd p).noDisplay = some true))).map Prod.fst) = ["a"]
    ∧ allPropsKeys (build 32 fmtOkCtx sItemsLeak) = ["a", "b"]
    ∧ (["a", "b"] : List String) ≠ ["a"] :=
  ⟨rfl, rfl, rfl, rfl, rfl, rfl, rfl, by decide⟩

/-- The C1 witness schema: property a is a visible number leaf and
required, property b is flagged noDisplay. -/
def sC1W : Schema := SchemaView.toSchema
  { properties := some [("a", sNumLeaf), ("b", sNoDispW)],
    required := some ["a"] }

/-- The definition built for the C1 witness schema. -/
def dC1W : Defn :=
  match build 32 fmtOkCtx sC1W with
  | .ok (some d) => d
  | _ => initialDefn ""

/-- CLAIM C1 witness: the amended partition theorem applied to a
concrete schema with a required visible property a and a noDisplay
property b. -/
theorem claim1_witness :
    build 32 fmtOkCtx sC1W = .ok (some dC1W)
    ∧ pmKeysO dC1W.allProps
        = (([("a", sNumLeaf), ("b", sNoDispW)].filter
            (fun p => ¬((Prod.snd p).noDisplay = some true))).map Prod.fst)
    ∧ (∀ k, pmGetO dC1W.requiredProps k =
        if k ∈ sC1W.required.getD [] then pmGetO dC1W.allProps k else none)
    ∧ (∀ k, pmGetO dC1W.optionalProps k =
        if k ∈ sC1W.required.getD [] then none else pmGetO dC1W.allProps k) := by
  have hb : build 32 fmtOkCtx sC1W = .ok (some dC1W) := rfl
  have h := claim1_partition 32 fmtOkCtx sC1W
      [("a", sNumLeaf), ("b", sNoDispW)] dC1W rfl (by decide) (by decide)
      rfl rfl rfl rfl rfl hb
  exact ⟨hb, h.1, h.2.1, h.2.2.2.1⟩
